import Mathlib

/-!
Shallow embedding of the leaf-fracture engine (`src/engine/geometry.js`,
`src/engine/fracture.js`) and of the interaction layer of
`src/components/PuzzleCanvas.jsx`.

Numbers: the JavaScript code computes with IEEE doubles; every operation in
the clipping / Voronoi / sampling pipeline is field arithmetic (add, mul,
div, compare), so that part is embedded over `ℚ` (exact field arithmetic,
executable).  The operations that genuinely need `sqrt`, `cos`, `sin`, `π`
(torn-edge noise, snapping, hit-testing) are embedded over `ℝ`.
Geometric primitives are kept polymorphic over a `LinearOrderedField` so the
same definition serves both instantiations.
-/

namespace Leaf

/-- A 2-D point `{x, y}`. -/
structure Pt (α : Type) where
  x : α
  y : α
deriving DecidableEq, Repr

/-- Axis-aligned bounding box record returned by `polygonBounds`. -/
structure Bounds (α : Type) where
  minX : α
  minY : α
  maxX : α
  maxY : α
deriving DecidableEq, Repr

variable {α : Type} [LinearOrderedField α]

/-- `polygonArea` (geometry.js): signed shoelace area, positive = CCW.
The JS loop pairs `poly[i]` with `poly[(i+1) % poly.length]`, which is the
pairing `poly.zip (poly.rotate 1)`. -/
def polygonArea (poly : List (Pt α)) : α :=
  ((poly.zip (poly.rotate 1)).foldl
    (fun area pq => area + pq.1.x * pq.2.y - pq.2.x * pq.1.y) 0) / 2

/-- `polygonCentroid` (geometry.js): standard centroid with fallback to the
vertex mean when `|area| < 1e-10`.  (For the empty polygon the JS code would
produce `NaN`; here division by zero yields `0`.  It is never called on an
empty polygon by the pipeline.) -/
def polygonCentroid (poly : List (Pt α)) : Pt α :=
  let a := polygonArea poly
  if |a| < 1 / 10 ^ 10 then
    { x := (poly.foldl (fun s p => s + p.x) 0) / (poly.length : α)
      y := (poly.foldl (fun s p => s + p.y) 0) / (poly.length : α) }
  else
    let c := (poly.zip (poly.rotate 1)).foldl
      (fun c pq =>
        let cross := pq.1.x * pq.2.y - pq.2.x * pq.1.y
        (c.1 + (pq.1.x + pq.2.x) * cross, c.2 + (pq.1.y + pq.2.y) * cross))
      ((0 : α), (0 : α))
    { x := c.1 / (6 * a), y := c.2 / (6 * a) }

/-- `pointInPolygon` (geometry.js): ray-casting parity test.  The JS loop
visits `(poly[i], poly[j])` with `j = i - 1 (mod length)`, i.e. the pairing
`poly.zip (poly.rotate (poly.length - 1))`.  When the first conjunct holds,
`vj.y - vi.y ≠ 0`, so the division is the honest JS division. -/
def pointInPolygon (pt : Pt α) (poly : List (Pt α)) : Bool :=
  (poly.zip (poly.rotate (poly.length - 1))).foldl
    (fun inside vw =>
      let vi := vw.1
      let vj := vw.2
      if (decide (vi.y > pt.y) != decide (vj.y > pt.y)) &&
          decide (pt.x < (vj.x - vi.x) * (pt.y - vi.y) / (vj.y - vi.y) + vi.x)
      then !inside else inside)
    false

/-- `polygonBounds` (geometry.js).  The JS version starts from `±Infinity`;
for a nonempty polygon that is the same as folding `min`/`max` from the
first vertex.  (Empty polygons never reach it in the pipeline; we return a
zero box for them.) -/
def polygonBounds (poly : List (Pt α)) : Bounds α :=
  match poly with
  | [] => ⟨0, 0, 0, 0⟩
  | p :: ps =>
    ps.foldl
      (fun b q => ⟨min b.minX q.x, min b.minY q.y, max b.maxX q.x, max b.maxY q.y⟩)
      ⟨p.x, p.y, p.x, p.y⟩

/-- `isInside` (geometry.js): `point` is on or left of the directed edge
`a → b` (cross product ≥ 0). -/
def isInside (point a b : Pt α) : Bool :=
  decide ((b.x - a.x) * (point.y - a.y) - (b.y - a.y) * (point.x - a.x) ≥ 0)

/-- `lineIntersection` (geometry.js): intersection of the lines through
`(p1,p2)` and `(p3,p4)`; `none` when `|denom| < 1e-10`. -/
def lineIntersection (p1 p2 p3 p4 : Pt α) : Option (Pt α) :=
  let denom := (p1.x - p2.x) * (p3.y - p4.y) - (p1.y - p2.y) * (p3.x - p4.x)
  if |denom| < 1 / 10 ^ 10 then none
  else
    let t := ((p1.x - p3.x) * (p3.y - p4.y) - (p1.y - p3.y) * (p3.x - p4.x)) / denom
    some { x := p1.x + t * (p2.x - p1.x), y := p1.y + t * (p2.y - p1.y) }

/-- One step of the Sutherland-Hodgman inner loop shared by `clipPolygon` and
`clipPolygonByLine`: process vertex `current` with predecessor `prev`
against the directed edge `edgeStart → edgeEnd`, appending to `out`. -/
def clipStep (edgeStart edgeEnd : Pt α) (out : List (Pt α)) (cp : Pt α × Pt α) :
    List (Pt α) :=
  let current := cp.1
  let prev := cp.2
  let currInside := isInside current edgeStart edgeEnd
  let prevInside := isInside prev edgeStart edgeEnd
  if currInside then
    (if !prevInside then
      out ++ (lineIntersection prev current edgeStart edgeEnd).toList
    else out) ++ [current]
  else if prevInside then
    out ++ (lineIntersection prev current edgeStart edgeEnd).toList
  else out

/-- The inner `for j` loop of `clipPolygon` / `clipPolygonByLine`: clip
`input` against the single directed edge `edgeStart → edgeEnd`.  The pair
list matches `(input[j], input[(j-1) mod length])`. -/
def clipEdge (edgeStart edgeEnd : Pt α) (input : List (Pt α)) : List (Pt α) :=
  (input.zip (input.rotate (input.length - 1))).foldl (clipStep edgeStart edgeEnd) []

/-- `clipPolygon` (geometry.js): Sutherland-Hodgman clipping of `subject`
against every edge of `clip`.  The JS early exit `if (output.length === 0)
return []` is observationally the same as folding on, because clipping an
empty list yields the empty list. -/
def clipPolygon (subject clip : List (Pt α)) : List (Pt α) :=
  if subject.length < 3 ∨ clip.length < 3 then []
  else (clip.zip (clip.rotate 1)).foldl (fun output e => clipEdge e.1 e.2 output) subject

/-- `clipPolygonByLine` (geometry.js): clip against the single directed line
`lineA → lineB`, keeping the left side. -/
def clipPolygonByLine (polygon : List (Pt α)) (lineA lineB : Pt α) : List (Pt α) :=
  if polygon.length < 3 then [] else clipEdge lineA lineB polygon

/-- First point put on the perpendicular bisector of `(si, sj)` by
`computeVoronoiCells`: `{ x: mid.x - dy, y: mid.y + dx }`. -/
def bisectorLineA (si sj : Pt α) : Pt α :=
  { x := (si.x + sj.x) / 2 - (sj.y - si.y), y := (si.y + sj.y) / 2 + (sj.x - si.x) }

/-- Second point on the bisector: `{ x: mid.x + dy, y: mid.y - dx }`. -/
def bisectorLineB (si sj : Pt α) : Pt α :=
  { x := (si.x + sj.x) / 2 + (sj.y - si.y), y := (si.y + sj.y) / 2 - (sj.x - si.x) }

/-- The big padded box built by `computeVoronoiCells`. -/
def bigBox (polygon : List (Pt α)) : List (Pt α) :=
  let bounds := polygonBounds polygon
  let pad := max (bounds.maxX - bounds.minX) (bounds.maxY - bounds.minY) / 2
  [ { x := bounds.minX - pad, y := bounds.minY - pad },
    { x := bounds.maxX + pad, y := bounds.minY - pad },
    { x := bounds.maxX + pad, y := bounds.maxY + pad },
    { x := bounds.minX - pad, y := bounds.maxY + pad } ]

/-- The inner `for j` loop of `computeVoronoiCells` for seed index `i`:
successive bisector clips, with the `if (cell.length < 3) break` modelled by
leaving the cell untouched once it has dropped below 3 vertices. -/
def voronoiCellRaw (seeds : List (Pt α)) (i : ℕ) (box : List (Pt α)) : List (Pt α) :=
  (List.range seeds.length).foldl
    (fun cell j =>
      if i = j then cell
      else if cell.length < 3 then cell
      else
        let si := seeds.getD i ⟨0, 0⟩
        let sj := seeds.getD j ⟨0, 0⟩
        clipPolygonByLine cell (bisectorLineA si sj) (bisectorLineB si sj))
    box

/-- The signed cross product tested by `isInside`: the point is on or left
of the directed line `a → b` iff `0 ≤ crossL a b p`.  As a function of `p`
(for a fixed line) it is affine. -/
def crossL (a b p : Pt α) : α :=
  (b.x - a.x) * (p.y - a.y) - (b.y - a.y) * (p.x - a.x)

/-- One iteration of the inner `for j` loop of `computeVoronoiCells` for
seed index `i` (the named form of the fold body of `voronoiCellRaw`): skip
`j = i`, skip once the cell has dropped below 3 vertices (the `break`),
otherwise clip against the `(i, j)` bisector. -/
def voronoiClipStep (seeds : List (Pt α)) (i : ℕ) (cell : List (Pt α)) (j : ℕ) :
    List (Pt α) :=
  if i = j then cell
  else if cell.length < 3 then cell
  else
    clipPolygonByLine cell
      (bisectorLineA (seeds.getD i ⟨0, 0⟩) (seeds.getD j ⟨0, 0⟩))
      (bisectorLineB (seeds.getD i ⟨0, 0⟩) (seeds.getD j ⟨0, 0⟩))

/-- `computeVoronoiCells` (geometry.js). -/
def computeVoronoiCells (seeds polygon : List (Pt α)) : List (List (Pt α)) :=
  let box := bigBox polygon
  (List.range seeds.length).map (fun i =>
    let cell := voronoiCellRaw seeds i box
    let cell := if 3 ≤ cell.length then clipPolygon cell polygon else cell
    if 3 ≤ cell.length then cell else [])

/-- One iteration of `lloydRelax` (geometry.js): move each seed to its cell's
centroid when the cell has ≥ 3 vertices and the centroid is inside. -/
def lloydStep (polygon : List (Pt α)) (current : List (Pt α)) : List (Pt α) :=
  let cells := computeVoronoiCells current polygon
  (current.zip cells).map (fun pc =>
    if 3 ≤ pc.2.length then
      let c := polygonCentroid pc.2
      if pointInPolygon c polygon then c else pc.1
    else pc.1)

/-- `lloydRelax` (geometry.js). -/
def lloydRelax (seeds polygon : List (Pt α)) (iterations : ℕ) : List (Pt α) :=
  (lloydStep polygon)^[iterations] seeds

/-- `mulberry32` (fracture.js).  JavaScript 32-bit integer operations are
modelled on the 32-bit bit pattern as a `Nat < 2^32`: `| 0` / `>>> 0` keep
the pattern, `Math.imul` is multiplication mod `2^32`, the float addition
`s + 0x6d2b79f5` is exact and then truncated by `| 0`, and `^`, `|`, `>>>`
act on the pattern directly.  Returns the JS value `(... >>> 0) / 2^32` as an
exact rational together with the next state. -/
def mulberry32Next (s : ℕ) : ℚ × ℕ :=
  let s1 := (s + 0x6d2b79f5) % 4294967296
  let t1 := ((s1 ^^^ (s1 >>> 15)) * (s1 ||| 1)) % 4294967296
  let t2 := ((t1 + ((t1 ^^^ (t1 >>> 7)) * (t1 ||| 61)) % 4294967296) % 4294967296) ^^^ t1
  let t3 := t2 ^^^ (t2 >>> 14)
  ((t3 : ℚ) / 4294967296, s1)

/-- Initial mulberry32 state `seed | 0`, as a 32-bit pattern. -/
def mulberry32Init (seed : ℤ) : ℕ := (seed % 4294967296).toNat

/-- The random source seen by `generateFragments`: either the seeded
mulberry32 stream, or the ambient `Math.random` stream (modelled as an
oracle `ℕ → ℚ` indexed by a call counter). -/
inductive RngS where
  | seeded (s : ℕ)
  | ambient (k : ℕ)
deriving DecidableEq, Repr

/-- One draw from the random source. -/
def rngNext (amb : ℕ → ℚ) : RngS → ℚ × RngS
  | .seeded s => let q := mulberry32Next s; (q.1, .seeded q.2)
  | .ambient k => (amb k, .ambient (k + 1))

/-- The loop of `randomPointsInPolygon` (geometry.js).  The JS `while`
condition `points.length < n && attempts < n * 200` is realised by running
on a fuel of `n * 200` (one unit per attempt).  Also returns the final rng
state and the number of attempts made. -/
def randomPointsInPolygonGo {σ : Type} (polygon : List (Pt ℚ)) (bounds : Bounds ℚ)
    (n : ℕ) (next : σ → ℚ × σ) :
    ℕ → σ → List (Pt ℚ) → ℕ → List (Pt ℚ) × σ × ℕ
  | 0, r, pts, att => (pts, r, att)
  | fuel + 1, r, pts, att =>
    if n ≤ pts.length then (pts, r, att)
    else
      let xr := next r
      let x := bounds.minX + xr.1 * (bounds.maxX - bounds.minX)
      let yr := next xr.2
      let y := bounds.minY + yr.1 * (bounds.maxY - bounds.minY)
      if pointInPolygon ⟨x, y⟩ polygon then
        randomPointsInPolygonGo polygon bounds n next fuel yr.2 (pts ++ [⟨x, y⟩]) (att + 1)
      else
        randomPointsInPolygonGo polygon bounds n next fuel yr.2 pts (att + 1)

/-- `randomPointsInPolygon` (geometry.js): rejection sampling of `n` points
inside `polygon`, at most `n * 200` attempts. -/
def randomPointsInPolygon {σ : Type} (polygon : List (Pt ℚ)) (n : ℕ)
    (next : σ → ℚ × σ) (r0 : σ) : List (Pt ℚ) × σ × ℕ :=
  randomPointsInPolygonGo polygon (polygonBounds polygon) n next (n * 200) r0 [] 0

/-- The `difficulty` argument of `generateFragments`: a JS string or some
other value (e.g. a number mistakenly passed as piece count). -/
inductive Difficulty where
  | str (s : String)
  | num (v : ℚ)
deriving DecidableEq, Repr

/-- The value found by the JS member access `PIECE_COUNTS[difficulty]`
(fracture.js line 151): one of the own numeric properties, or a member
inherited from `Object.prototype` (a function — or, for the key
`__proto__`, the prototype object — in either case truthy), or
`undefined`. -/
inductive PieceVal where
  | num (n : ℕ)
  | protoMember
deriving DecidableEq, Repr

/-- The own property keys of `Object.prototype`.  A JS member access on an
object literal walks the prototype chain, so `PIECE_COUNTS[s]` for these
strings yields the inherited member instead of `undefined`. -/
def OBJECT_PROTOTYPE_KEYS : List String :=
  [("constructor"), ("hasOwnProperty"), ("isPrototypeOf"),
   ("propertyIsEnumerable"), ("toLocaleString"), ("toString"), ("valueOf"),
   ("__defineGetter__"), ("__defineSetter__"), ("__lookupGetter__"),
   ("__lookupSetter__"), ("__proto__")]

/-- `PIECE_COUNTS[difficulty]` (fracture.js): the own keys `easy ↦ 5`,
`medium ↦ 8`, `hard ↦ 13`; for any other string the prototype chain is
consulted, so an `Object.prototype` key finds the inherited member; every
other access — including a numeric difficulty, whose string form is no
property — is `undefined` (`none`). -/
def PIECE_COUNTS_lookup : Difficulty → Option PieceVal
  | .str s =>
    if s = ("easy") then some (.num 5)
    else if s = ("medium") then some (.num 8)
    else if s = ("hard") then some (.num 13)
    else if s ∈ OBJECT_PROTOTYPE_KEYS then some (.protoMember)
    else none
  | .num _ => none

/-- `PIECE_COUNTS[difficulty] || PIECE_COUNTS.medium` (fracture.js line 151):
JS `||` falls back to the medium count on falsy values (`undefined`, and a
`0` own value — unreachable with the actual table), but an inherited
prototype member is truthy and survives the `||`. -/
def resolvePieceVal (d : Difficulty) : PieceVal :=
  match PIECE_COUNTS_lookup d with
  | some (.num k) => if k = 0 then .num 8 else .num k
  | some .protoMember => .protoMember
  | none => .num 8

/-- The point target of the sampling loop, as consumed by the `while`
condition `points.length < n && attempts < n * 200` of
`randomPointsInPolygon`: when `n` is an inherited prototype member (not a
number) both comparisons coerce it to `NaN` and are false, so the loop
performs zero iterations — observationally a target of `0`. -/
def samplingN : PieceVal → ℕ
  | .num n => n
  | .protoMember => 0

/-- The requested piece count as a natural number: the value of the
program's `n` when it is a number.  When `n` is an inherited prototype
member the sampler collects nothing and the three-seed fallback engages
(at most 3 fragments), so the medium default `8` recorded here is still an
upper bound on the fragment count; this is the count bound appearing in the
C7 and C8 statements. -/
def resolvePieceCount (d : Difficulty) : ℕ :=
  match resolvePieceVal d with
  | .num n => n
  | .protoMember => 8

/-- The three hand-placed fallback seeds of `generateFragments`
(fracture.js lines 158-167), around the bounding-box center. -/
def fallbackSeeds (outline : List (Pt ℚ)) : List (Pt ℚ) :=
  let bounds := polygonBounds outline
  let cx := (bounds.minX + bounds.maxX) / 2
  let cy := (bounds.minY + bounds.maxY) / 2
  [⟨cx, cy⟩, ⟨cx - 20, cy - 20⟩, ⟨cx + 20, cy + 20⟩]

/-- Initial random source of `generateFragments`: `mulberry32(seed)` when an
integer seed is given, the ambient `Math.random` stream otherwise. -/
def rngInit (seed : Option ℤ) : RngS :=
  match seed with
  | some z => .seeded (mulberry32Init z)
  | none => .ambient 0

/-- Seed-point phase of `generateFragments`: rejection sampling with either
the mulberry32 stream (when an integer seed is given) or the ambient
`Math.random` stream, then the < 3 fallback.  Returns the seeds and the rng
state after sampling. -/
def generateSeeds (outline : List (Pt ℚ)) (d : Difficulty) (seed : Option ℤ)
    (amb : ℕ → ℚ) : List (Pt ℚ) × RngS :=
  let n := samplingN (resolvePieceVal d)
  let res := randomPointsInPolygon outline n (rngNext amb) (rngInit seed)
  (if res.1.length < 3 then fallbackSeeds outline else res.1, res.2.1)

/-- From-seeds part of the `generateFragments` pipeline (fracture.js lines
169-185): Lloyd relaxation (2 iterations) → Voronoi cells → discarding of
cells with < 3 vertices or `|area| < 1% · |outline area|`.  Returns the
kept cells with their original cell index `i` (the fragment `id`). -/
def keptCellsOfSeeds (outline seeds0 : List (Pt ℚ)) : List (ℕ × List (Pt ℚ)) :=
  let seeds := lloydRelax seeds0 outline 2
  let cells := computeVoronoiCells seeds outline
  let totalArea := |polygonArea outline|
  cells.enum.filterMap (fun ic =>
    if ic.2.length < 3 then none
    else if |polygonArea ic.2| < totalArea * (1 / 100) then none
    else some ic)

/-- The deterministic part of `generateFragments` (fracture.js lines
150-185): seed sampling, then `keptCellsOfSeeds`.  Also returns the
`Math.random` call counter at which torn-edge noise starts (`0` when a seed
was supplied, since then sampling used mulberry32). -/
def generateKeptCells (outline : List (Pt ℚ)) (d : Difficulty) (seed : Option ℤ)
    (amb : ℕ → ℚ) : List (ℕ × List (Pt ℚ)) × ℕ :=
  let sr := generateSeeds outline d seed amb
  (keptCellsOfSeeds outline sr.1,
    match sr.2 with
    | .seeded _ => 0
    | .ambient k => k)

/-- The relaxed seed list whose Voronoi cells `generateKeptCells` keeps:
the sampled-or-fallback seeds after 2 Lloyd iterations. -/
def relaxedSeeds (outline : List (Pt ℚ)) (d : Difficulty) (seed : Option ℤ)
    (amb : ℕ → ℚ) : List (Pt ℚ) :=
  lloydRelax (generateSeeds outline d seed amb).1 outline 2

/-- Cell polygons `c1`, `c2` are separated by the perpendicular bisector of
the seeds `s1`, `s2`: every vertex of `c1` is at least as close to `s2` as
to `s1`, and symmetrically.  The two polygons then lie in the two closed
half-planes of the bisector, so their interiors meet at most on the
bisector line — they do not overlap. -/
def bisectorSeparated (s1 s2 : Pt ℚ) (c1 c2 : List (Pt ℚ)) : Prop :=
  (∀ v ∈ c1, (v.x - s2.x) ^ 2 + (v.y - s2.y) ^ 2 ≤ (v.x - s1.x) ^ 2 + (v.y - s1.y) ^ 2) ∧
  (∀ w ∈ c2, (w.x - s1.x) ^ 2 + (w.y - s1.y) ^ 2 ≤ (w.x - s2.x) ^ 2 + (w.y - s2.y) ^ 2)

/-! ### Real-valued part of the pipeline

Torn-edge noise needs `sqrt`, hit-testing needs `cos`/`sin`, snapping needs
`π`; these are embedded over `ℝ`. -/

/-- Cast a rational point to a real point. -/
def ptCast (p : Pt ℚ) : Pt ℝ := ⟨(p.x : ℝ), (p.y : ℝ)⟩

/-- Inner-loop body of `addTornEdgeNoise` (fracture.js lines 121-137): one
subdivision point of the edge `a → b`.  The accumulator carries the output
vertices and the `Math.random` call counter; a zero-length edge consumes no
randomness, exactly as in the source. -/
noncomputable def tornNoiseSubStep (amount : ℝ) (amb : ℕ → ℝ) (a b : Pt ℝ)
    (subdivisions : ℕ) (acc : List (Pt ℝ) × ℕ) (sIdx : ℕ) : List (Pt ℝ) × ℕ :=
  let s : ℝ := (sIdx : ℝ) + 1
  let t := s / ((subdivisions : ℝ) + 1)
  let mx := a.x + (b.x - a.x) * t
  let my := a.y + (b.y - a.y) * t
  let dx := b.x - a.x
  let dy := b.y - a.y
  let len := Real.sqrt (dx * dx + dy * dy)
  if 0 < len then
    let nx := -dy / len
    let ny := dx / len
    let displacement := (amb acc.2 - 1 / 2) * 2 * amount
    (acc.1 ++ [⟨mx + nx * displacement, my + ny * displacement⟩], acc.2 + 1)
  else (acc.1 ++ [⟨mx, my⟩], acc.2)

/-- Outer-loop body of `addTornEdgeNoise`: emit vertex `a`, then its
subdivision points towards `b`. -/
noncomputable def tornNoiseEdgeStep (amount : ℝ) (amb : ℕ → ℝ) (subdivisions : ℕ)
    (acc : List (Pt ℝ) × ℕ) (ab : Pt ℝ × Pt ℝ) : List (Pt ℝ) × ℕ :=
  (List.range subdivisions).foldl (tornNoiseSubStep amount amb ab.1 ab.2 subdivisions)
    (acc.1 ++ [ab.1], acc.2)

/-- `addTornEdgeNoise` (fracture.js): subdivide each edge and displace the
interpolated points along the edge normal by `(Math.random() - 0.5) * 2 *
amount`.  `Math.random` is the ambient oracle `amb` at the call counter. -/
noncomputable def addTornEdgeNoise (polygon : List (Pt ℝ)) (amount : ℝ)
    (subdivisions : ℕ) (amb : ℕ → ℝ) (k0 : ℕ) : List (Pt ℝ) × ℕ :=
  if polygon.length < 3 then (polygon, k0)
  else (polygon.zip (polygon.rotate 1)).foldl (tornNoiseEdgeStep amount amb subdivisions)
    ([], k0)

/-- The durable fragment object built by `generateFragments`. -/
structure Fragment where
  id : ℕ
  polygon : List (Pt ℝ)
  centroid : Pt ℝ
  correctPosition : Pt ℝ
  currentPosition : Pt ℝ
  rotation : ℝ
  isPlaced : Bool
  zIndex : ℤ

/-- The fragment-construction loop of `generateFragments` (fracture.js lines
179-202) applied to the kept cells, threading the `Math.random` counter
through the successive `addTornEdgeNoise` calls.  The noise amount is `2`
and `subdivisions` is `1`, as at the call site. -/
noncomputable def buildFragments (amb : ℕ → ℚ) :
    List (ℕ × List (Pt ℚ)) → ℕ → List Fragment
  | [], _ => []
  | ic :: rest, k =>
    let noised := addTornEdgeNoise (ic.2.map ptCast) 2 1 (fun n => ((amb n : ℚ) : ℝ)) k
    let c := polygonCentroid noised.1
    { id := ic.1
      polygon := noised.1
      centroid := c
      correctPosition := c
      currentPosition := ⟨0, 0⟩
      rotation := 0
      isPlaced := false
      zIndex := (ic.1 : ℤ) } :: buildFragments amb rest noised.2

/-- `generateFragments` (fracture.js): the full pipeline.  `seed` is the
optional integer seed; `amb` is the ambient `Math.random` stream, drawn upon
by the sampler when no seed is given and by `addTornEdgeNoise` always. -/
noncomputable def generateFragments (outline : List (Pt ℚ)) (difficulty : Difficulty)
    (seed : Option ℤ) (amb : ℕ → ℚ) : List Fragment :=
  let kc := generateKeptCells outline difficulty seed amb
  buildFragments amb kc.1 kc.2

/-- `transformPoint` (geometry.js): rotate about the origin, then translate. -/
noncomputable def transformPoint (p : Pt ℝ) (rot : ℝ) (translation : Pt ℝ) : Pt ℝ :=
  ⟨p.x * Real.cos rot - p.y * Real.sin rot + translation.x,
   p.x * Real.sin rot + p.y * Real.cos rot + translation.y⟩

/-- `hitTestFragment` (geometry.js): map the canvas point into the
fragment's local frame with the inverse rotation, then ray-cast against the
polygon offset by `-centroid`. -/
noncomputable def hitTestFragment (canvasPoint : Pt ℝ) (fragment : Fragment) : Bool :=
  let dx := canvasPoint.x - fragment.currentPosition.x
  let dy := canvasPoint.y - fragment.currentPosition.y
  let c := Real.cos (-fragment.rotation)
  let s := Real.sin (-fragment.rotation)
  let localX := dx * c - dy * s
  let localY := dx * s + dy * c
  let poly := fragment.polygon.map
    (fun v => Pt.mk (v.x - fragment.centroid.x) (v.y - fragment.centroid.y))
  pointInPolygon ⟨localX, localY⟩ poly

/-- JavaScript `trunc` (round towards zero), for the `%` operator. -/
noncomputable def jsTrunc (x : ℝ) : ℤ := if 0 ≤ x then ⌊x⌋ else ⌈x⌉

/-- JavaScript remainder `x % y`: `x - y * trunc (x / y)` (the sign follows
the dividend). -/
noncomputable def jsMod (x y : ℝ) : ℝ := x - y * (jsTrunc (x / y) : ℝ)

/-- `checkSnap` (fracture.js): distance below `snapDistance` and rotation,
normalized into `[0, 2π)` the JS way, within `snapAngle` of 0 or of 2π. -/
noncomputable def checkSnap (fragment : Fragment) (leafOrigin : Pt ℝ)
    (snapDistance snapAngle : ℝ) : Bool :=
  let targetX := leafOrigin.x + fragment.centroid.x
  let targetY := leafOrigin.y + fragment.centroid.y
  let dx := fragment.currentPosition.x - targetX
  let dy := fragment.currentPosition.y - targetY
  let distance := Real.sqrt (dx * dx + dy * dy)
  let rot0 := jsMod fragment.rotation (Real.pi * 2)
  let rot := if rot0 < 0 then rot0 + Real.pi * 2 else rot0
  decide (distance < snapDistance) &&
    (decide (rot < snapAngle) || decide (rot > Real.pi * 2 - snapAngle))

/-- `snapFragment` (fracture.js): place the fragment at
`leafOrigin + centroid`, reset its rotation, and mark it placed. -/
noncomputable def snapFragment (fragment : Fragment) (leafOrigin : Pt ℝ) : Fragment :=
  { fragment with
    currentPosition := ⟨leafOrigin.x + fragment.centroid.x, leafOrigin.y + fragment.centroid.y⟩
    rotation := 0
    isPlaced := true }

/-! ### Interaction layer (PuzzleCanvas.jsx)

The refs of `PuzzleCanvas` are modelled as an explicit state record; each
pointer / keyboard handler is a state transformer.  JS mutates the fragment
object returned by `find`; with distinct ids (which generation guarantees)
that is the same as mapping over the list by id. -/

/-- `SNAP_DISTANCE` (PuzzleCanvas.jsx). -/
def SNAP_DISTANCE : ℝ := 35

/-- `SNAP_ANGLE` (PuzzleCanvas.jsx). -/
noncomputable def SNAP_ANGLE : ℝ := 0.4

/-- `ROTATE_STEP` (PuzzleCanvas.jsx): 90° increments. -/
noncomputable def ROTATE_STEP : ℝ := Real.pi / 2

/-- `draggingRef.current`. -/
structure DragState where
  fragmentId : ℕ
  offsetX : ℝ
  offsetY : ℝ

/-- The mutable state of `PuzzleCanvas`: `fragmentsRef`, `draggingRef`,
`leafOriginRef`, `scaleRef`, and the victory flag. -/
structure GameState where
  fragments : List Fragment
  dragging : Option DragState
  leafOrigin : Pt ℝ
  scale : ℝ
  isVictory : Bool

/-- The scaled copy of a fragment built inside `findFragment`
(PuzzleCanvas.jsx lines 211-223). -/
noncomputable def scaledFragment (scale : ℝ) (f : Fragment) : Fragment :=
  { f with
    polygon := f.polygon.map (fun v => Pt.mk (v.x * scale) (v.y * scale))
    centroid := ⟨f.centroid.x * scale, f.centroid.y * scale⟩ }

/-- `findFragment` (PuzzleCanvas.jsx): topmost unplaced fragment at `pos` —
filter out placed fragments, sort by descending `zIndex` (JS `Array.sort`
is stable, like `mergeSort`), return the first hit. -/
noncomputable def findFragment (st : GameState) (pos : Pt ℝ) : Option Fragment :=
  let sorted := (st.fragments.filter (fun f => !f.isPlaced)).mergeSort
    (fun a b => decide (b.zIndex ≤ a.zIndex))
  sorted.find? (fun f => hitTestFragment pos (scaledFragment st.scale f))

/-- Update the fragment with the given id (JS mutates the object in place). -/
def updateById (fragments : List Fragment) (fid : ℕ) (g : Fragment → Fragment) :
    List Fragment :=
  fragments.map (fun f => if f.id = fid then g f else f)

/-- `handlePointerDown` (PuzzleCanvas.jsx): hit-test, bring the fragment to
the top, and start dragging it. -/
noncomputable def pointerDown (pos : Pt ℝ) (st : GameState) : GameState :=
  if st.isVictory then st
  else
    match findFragment st pos with
    | none => st
    | some frag =>
      let maxZ := ((st.fragments.map (fun f => f.zIndex)).max?).getD 0
      { st with
        fragments := updateById st.fragments frag.id (fun f => { f with zIndex := maxZ + 1 })
        dragging := some ⟨frag.id, pos.x - frag.currentPosition.x,
          pos.y - frag.currentPosition.y⟩ }

/-- `handlePointerMove` (PuzzleCanvas.jsx): drag the held fragment. -/
noncomputable def pointerMove (pos : Pt ℝ) (st : GameState) : GameState :=
  match st.dragging with
  | none => st
  | some d =>
    { st with
      fragments := updateById st.fragments d.fragmentId
        (fun f => { f with currentPosition := ⟨pos.x - d.offsetX, pos.y - d.offsetY⟩ }) }

/-- `handlePointerUp` (PuzzleCanvas.jsx): release the held fragment and snap
it when it is within `SNAP_DISTANCE` / `SNAP_ANGLE` of its anchor (the
snap-check and snap are inlined in the handler, mirroring
`checkSnap`/`snapFragment` with the scaled centroid). -/
noncomputable def pointerUp (st : GameState) : GameState :=
  match st.dragging with
  | none => st
  | some d =>
    let st' := { st with dragging := none }
    match st.fragments.find? (fun f => f.id == d.fragmentId) with
    | none => st'
    | some frag =>
      let targetX := st.leafOrigin.x + frag.centroid.x * st.scale
      let targetY := st.leafOrigin.y + frag.centroid.y * st.scale
      let dx := frag.currentPosition.x - targetX
      let dy := frag.currentPosition.y - targetY
      let distance := Real.sqrt (dx * dx + dy * dy)
      let rot0 := jsMod frag.rotation (Real.pi * 2)
      let rot := if rot0 < 0 then rot0 + Real.pi * 2 else rot0
      let angleOk := decide (rot < SNAP_ANGLE) || decide (rot > Real.pi * 2 - SNAP_ANGLE)
      if decide (distance < SNAP_DISTANCE) && angleOk then
        let fragments' := updateById st.fragments d.fragmentId (fun f =>
          { f with currentPosition := ⟨targetX, targetY⟩, rotation := 0, isPlaced := true })
        let newPlaced := (fragments'.filter (fun f => f.isPlaced)).length
        { st with
          dragging := none
          fragments := fragments'
          isVictory := if newPlaced = fragments'.length then true else st.isVictory }
      else st'

/-- The `R` key handler (PuzzleCanvas.jsx lines 335-345): rotate the held
fragment by `ROTATE_STEP`. -/
noncomputable def keyRotate (st : GameState) : GameState :=
  match st.dragging with
  | none => st
  | some d =>
    { st with
      fragments := updateById st.fragments d.fragmentId
        (fun f => { f with rotation := f.rotation + ROTATE_STEP }) }

/-- The wheel handler (PuzzleCanvas.jsx lines 359-370): rotate the held
fragment by `±ROTATE_STEP` according to the scroll direction. -/
noncomputable def wheelRotate (deltaYPos : Bool) (st : GameState) : GameState :=
  match st.dragging with
  | none => st
  | some d =>
    { st with
      fragments := updateById st.fragments d.fragmentId
        (fun f => { f with rotation :=
          f.rotation + if deltaYPos then ROTATE_STEP else -ROTATE_STEP }) }

/-- `handleRotateBtn` (PuzzleCanvas.jsx): rotate the topmost unplaced
fragment. -/
noncomputable def rotateButton (st : GameState) : GameState :=
  let unplaced := (st.fragments.filter (fun f => !f.isPlaced)).mergeSort
    (fun a b => decide (b.zIndex ≤ a.zIndex))
  match unplaced.head? with
  | none => st
  | some top =>
    { st with
      fragments := updateById st.fragments top.id
        (fun f => { f with rotation := f.rotation + ROTATE_STEP }) }

/-- One user interaction. -/
inductive Action where
  | down (pos : Pt ℝ)
  | move (pos : Pt ℝ)
  | up
  | key
  | wheel (deltaYPos : Bool)
  | button

/-- Apply one interaction to the state. -/
noncomputable def stepAction : Action → GameState → GameState
  | .down pos => pointerDown pos
  | .move pos => pointerMove pos
  | .up => pointerUp
  | .key => keyRotate
  | .wheel b => wheelRotate b
  | .button => rotateButton

/-- Apply a sequence of interactions. -/
noncomputable def runActions (acts : List Action) (st : GameState) : GameState :=
  acts.foldl (fun s a => stepAction a s) st

/-- Well-formedness maintained by the interaction layer: fragment ids are
distinct (true of generated fragments, whose ids are distinct cell indices)
and a held fragment is never a placed one. -/
def WFState (st : GameState) : Prop :=
  (st.fragments.map (fun f => f.id)).Nodup ∧
  ∀ d, st.dragging = some d →
    ∀ f ∈ st.fragments, f.isPlaced = true → f.id ≠ d.fragmentId

/-! ### Specification-side definitions

These follow the wording of the specification (for refinement claims); they
are compared with the definitions embedded from the source above. -/

/-- Spec: `checkSnap` is true iff the Euclidean distance between
`currentPosition` and `anchor + centroid` is below `snapDistance`, and the
rotation, normalized into `[0, 2π)`, lies within `snapAngleTolerance` of 0
on either side of the 0/2π wrap. -/
noncomputable def checkSnapSpec (fragment : Fragment) (anchor : Pt ℝ)
    (snapDistance snapAngleTol : ℝ) : Prop :=
  Real.sqrt ((fragment.currentPosition.x - (anchor.x + fragment.centroid.x)) ^ 2 +
      (fragment.currentPosition.y - (anchor.y + fragment.centroid.y)) ^ 2) < snapDistance ∧
  (let r := fragment.rotation - 2 * Real.pi * (⌊fragment.rotation / (2 * Real.pi)⌋ : ℝ)
   r < snapAngleTol ∨ 2 * Real.pi - r < snapAngleTol)

/-- Spec (claim C9): `hitTest` maps the point into the fragment's local
frame by translating relative to `currentPosition` and applying the inverse
rotation, then tests containment against the polygon offset by
`-centroid`. -/
noncomputable def hitTestSpec (point : Pt ℝ) (fragment : Fragment) : Prop :=
  pointInPolygon
    (transformPoint
      ⟨point.x - fragment.currentPosition.x, point.y - fragment.currentPosition.y⟩
      (-fragment.rotation) ⟨0, 0⟩)
    (fragment.polygon.map
      (fun v => Pt.mk (v.x - fragment.centroid.x) (v.y - fragment.centroid.y))) = true

/-! ### Concrete inputs used by the counterexamples and evaluations

The claims quantify over simple input polygons; `isSimplePolygon` is a
decidable sufficient check for simplicity (pairwise-distinct vertices,
non-adjacent closed edges disjoint, adjacent edges meeting only at their
shared endpoint). -/

/-- Twice the signed area of triangle `p q r` (orientation test). -/
def orient (p q r : Pt ℚ) : ℚ :=
  (q.x - p.x) * (r.y - p.y) - (q.y - p.y) * (r.x - p.x)

/-- `r` lies on the closed segment `[p, q]`. -/
def onSegment (p q r : Pt ℚ) : Bool :=
  decide (orient p q r = 0) && decide (min p.x q.x ≤ r.x) && decide (r.x ≤ max p.x q.x)
    && decide (min p.y q.y ≤ r.y) && decide (r.y ≤ max p.y q.y)

/-- Closed segments `[p, q]` and `[r, s]` share at least one point. -/
def segIntersects (p q r s : Pt ℚ) : Bool :=
  (decide (orient r s p * orient r s q < 0) && decide (orient p q r * orient p q s < 0))
    || onSegment p q r || onSegment p q s || onSegment r s p || onSegment r s q

/-- Decidable sufficient condition for a polygon (≥ 3 vertices, implicitly
closed) to be simple / non-self-intersecting. -/
def isSimplePolygon (poly : List (Pt ℚ)) : Bool :=
  let n := poly.length
  let v := fun i => poly.getD (i % n) ⟨0, 0⟩
  decide (3 ≤ n) && decide poly.Nodup &&
  ((List.range n).all fun i =>
    (List.range n).all fun j =>
      if j ≤ i then true
      else
        let a := v i
        let b := v (i + 1)
        let c := v j
        let d := v (j + 1)
        if j = i + 1 then !(onSegment c d a) && !(onSegment a b d)
        else if i = 0 && j = n - 1 then !(onSegment c d b) && !(onSegment a b c)
        else !(segIntersects a b c d))

/-- A long, very thin (but non-degenerate) triangle whose interior contains
no point of the `2⁻³² ` sample lattice: the apex gap is `ε = 1000/2³² =
125/536870912`, so every rejection-sampling draw `(1000·t₁/2³²,
1000·t₂/2³²)` misses and `generateFragments` takes the three-seed fallback
path (proved in `randomPointsInPolygon_sliver_empty`, not merely
evaluated). -/
def sliverTriangle : List (Pt ℚ) :=
  [⟨0, 0⟩, ⟨1000, 1000⟩, ⟨1000 - 125/536870912, 1000⟩]

/-- A thin non-convex (arrowhead) quadrilateral, bent at `(500, 400)`. -/
def arrowQuad : List (Pt ℚ) :=
  [⟨0, 0⟩, ⟨500, 400⟩, ⟨1000, 1000⟩, ⟨500, 400 + 1/1000⟩]

/-- Ambient `Math.random` stream returning `1/2` forever (zero torn-edge
displacement). -/
def ambHalf : ℕ → ℚ := fun _ => 1/2

/-- Ambient `Math.random` stream returning `0` forever (displacement
`-amount` on every subdivision point). -/
def ambZero : ℕ → ℚ := fun _ => 0

/-- Shape check used by the claim-C1 proof: the first kept cell for the
sliver triangle on the fallback-seed path has at least 3 vertices and its
first edge is not horizontal. -/
def firstCellCheck : Bool :=
  match keptCellsOfSeeds sliverTriangle (fallbackSeeds sliverTriangle) with
  | (_, v0 :: v1 :: _ :: _) :: _ => decide (¬ v0.y = v1.y)
  | _ => false

/-! ## Supporting lemmas -/

theorem mulberry32Next_fst (s : ℕ) :
    ∃ t : ℕ, t < 4294967296 ∧ (mulberry32Next s).1 = (t : ℚ) / 4294967296 := by
  have h32 : (4294967296 : ℕ) = 2 ^ 32 := by norm_num
  have hmod : ∀ a : ℕ, a % 4294967296 < 4294967296 := fun a => Nat.mod_lt a (by norm_num)
  have hxor : ∀ a b : ℕ, a < 4294967296 → b < 4294967296 → a ^^^ b < 4294967296 := by
    intro a b ha hb
    rw [h32] at ha hb ⊢
    exact Nat.xor_lt_two_pow ha hb
  have hshift : ∀ a k : ℕ, a < 4294967296 → a >>> k < 4294967296 := by
    intro a k ha
    calc a >>> k ≤ a := by
          rw [Nat.shiftRight_eq_div_pow]
          exact Nat.div_le_self a (2 ^ k)
      _ < 4294967296 := ha
  unfold mulberry32Next
  exact ⟨_, hxor _ _ (hxor _ _ (hmod _) (hmod _)) (hshift _ _ (hxor _ _ (hmod _) (hmod _))),
    rfl⟩

set_option maxRecDepth 40000 in
theorem sliver_bounds : polygonBounds sliverTriangle = ⟨0, 0, 1000, 1000⟩ := by
  with_unfolding_all decide

theorem sliver_draw_miss (q1 q2 : ℚ)
    (h1 : ∃ t : ℕ, t < 4294967296 ∧ q1 = (t : ℚ) / 4294967296)
    (h2 : ∃ t : ℕ, t < 4294967296 ∧ q2 = (t : ℚ) / 4294967296) :
    pointInPolygon ⟨0 + q1 * (1000 - 0), 0 + q2 * (1000 - 0)⟩ sliverTriangle = false := by
  obtain ⟨t1, ht1, rfl⟩ := h1
  obtain ⟨t2, ht2, rfl⟩ := h2
  have ht1n : t1 ≤ 4294967295 := Nat.lt_succ_iff.mp ht1
  have ht2n : t2 ≤ 4294967295 := Nat.lt_succ_iff.mp ht2
  have ht1q : (t1 : ℚ) ≤ 4294967295 := by exact_mod_cast ht1n
  have ht2q : (t2 : ℚ) ≤ 4294967295 := by exact_mod_cast ht2n
  have ht1q0 : 0 ≤ (t1 : ℚ) := Nat.cast_nonneg t1
  have ht2q0 : 0 ≤ (t2 : ℚ) := Nat.cast_nonneg t2
  have hD : (0 : ℚ) < 4294967296 := by norm_num
  have hA : ¬((t2 : ℚ) / 4294967296 < 1 ↔ (t2 : ℚ) / 4294967296 * 1000 < 0) := by
    intro hif
    have h1lt : (t2 : ℚ) / 4294967296 < 1 := by
      rw [div_lt_one hD]
      linarith
    have hpos : 0 ≤ (t2 : ℚ) / 4294967296 * 1000 := by positivity
    exact absurd (hif.mp h1lt) (not_lt.mpr hpos)
  unfold pointInPolygon sliverTriangle
  norm_num [List.rotate, List.zip, List.zipWith, List.foldl]
  split_ifs with hc
  · obtain ⟨-, hlt⟩ := hc
    have htlt : (t1 : ℚ) < (t2 : ℚ) := by
      calc (t1 : ℚ) = t1 / 4294967296 * 4294967296 := by field_simp
        _ < t2 / 4294967296 * 4294967296 := mul_lt_mul_of_pos_right hlt hD
        _ = t2 := by field_simp
    have htn : t1 < t2 := by exact_mod_cast htlt
    have htq : (t1 : ℚ) + 1 ≤ t2 := by exact_mod_cast htn
    constructor
    · intro hif
      have hpos : 0 ≤ (t2 : ℚ) / 4294967296 * 1000 := by positivity
      have h1lt : (t2 : ℚ) / 4294967296 < 1 := by
        rw [div_lt_one hD]
        linarith
      exact absurd (hif.mpr h1lt) (not_lt.mpr hpos)
    · linarith
  · intro hif
    have hnlt : ¬ ((t1 : ℚ) / 4294967296 < (t2 : ℚ) / 4294967296) := fun h => hc ⟨hA, h⟩
    have hge : (t2 : ℚ) ≤ (t1 : ℚ) := by
      have h := not_lt.mp hnlt
      calc (t2 : ℚ) = t2 / 4294967296 * 4294967296 := by field_simp
        _ ≤ t1 / 4294967296 * 4294967296 := mul_le_mul_of_nonneg_right h hD.le
        _ = t1 := by field_simp
    linarith


/-- The sampling loop on the sliver triangle from a seeded state collects
no points: every drawn sample lies on the `2⁻³²` lattice, which misses the
sliver's interior entirely. -/
theorem randomPointsInPolygonGo_sliver (amb : ℕ → ℚ) (n : ℕ) :
    ∀ (fuel : ℕ) (s : ℕ) (pts : List (Pt ℚ)) (att : ℕ),
      (randomPointsInPolygonGo sliverTriangle ⟨0, 0, 1000, 1000⟩ n (rngNext amb) fuel
        (.seeded s) pts att).1 = pts ∧
      ∃ s2 : ℕ, (randomPointsInPolygonGo sliverTriangle ⟨0, 0, 1000, 1000⟩ n (rngNext amb)
        fuel (.seeded s) pts att).2.1 = .seeded s2 := by
  intro fuel
  induction fuel with
  | zero => intro s pts att; exact ⟨rfl, s, rfl⟩
  | succ m ih =>
    intro s pts att
    simp only [randomPointsInPolygonGo, rngNext]
    split
    · exact ⟨rfl, s, rfl⟩
    · rw [sliver_draw_miss ((mulberry32Next s).1) ((mulberry32Next (mulberry32Next s).2).1)
        (mulberry32Next_fst s) (mulberry32Next_fst (mulberry32Next s).2)]
      simp only [Bool.false_eq_true, if_false]
      exact ih _ _ _

/-- `randomPointsInPolygon` on the sliver triangle with a seeded rng finds
no points and stays in a seeded state. -/
theorem randomPointsInPolygon_sliver (amb : ℕ → ℚ) (n : ℕ) (s : ℕ) :
    (randomPointsInPolygon sliverTriangle n (rngNext amb) (RngS.seeded s)).1 = [] ∧
    ∃ s2 : ℕ,
      (randomPointsInPolygon sliverTriangle n (rngNext amb) (RngS.seeded s)).2.1
        = .seeded s2 := by
  unfold randomPointsInPolygon
  rw [sliver_bounds]
  exact randomPointsInPolygonGo_sliver amb n (n * 200) s [] 0

/-- `generateSeeds` on the sliver triangle with an integer seed takes the
three-point fallback. -/
theorem generateSeeds_sliver (d : Difficulty) (z : ℤ) (amb : ℕ → ℚ) :
    (generateSeeds sliverTriangle d (some z) amb).1 = fallbackSeeds sliverTriangle ∧
    ∃ s2 : ℕ, (generateSeeds sliverTriangle d (some z) amb).2 = .seeded s2 := by
  obtain ⟨h1, s2, h2⟩ :=
    randomPointsInPolygon_sliver amb (samplingN (resolvePieceVal d)) (mulberry32Init z)
  have hinit : rngInit (some z) = RngS.seeded (mulberry32Init z) := rfl
  constructor
  · unfold generateSeeds
    rw [hinit]
    simp only [h1]
    simp
  · refine ⟨s2, ?_⟩
    unfold generateSeeds
    rw [hinit]
    simp only [h2]

/-- On the sliver triangle with an integer seed, the kept cells are exactly
those of the fallback seeds, and the torn-edge noise starts at ambient
counter 0. -/
theorem generateKeptCells_sliver (d : Difficulty) (z : ℤ) (amb : ℕ → ℚ) :
    generateKeptCells sliverTriangle d (some z) amb =
      (keptCellsOfSeeds sliverTriangle (fallbackSeeds sliverTriangle), 0) := by
  obtain ⟨h1, s2, h2⟩ := generateSeeds_sliver d z amb
  simp only [generateKeptCells, h1, h2]

/-- The cross product tested by the bisector clip of `computeVoronoiCells`
equals the difference of squared distances to the two seeds: the clip keeps
the points that are at least as far from seed `i` as from seed `j`. -/
theorem isInside_bisector_iff (si sj p : Pt ℚ) :
    isInside p (bisectorLineA si sj) (bisectorLineB si sj) = true ↔
      (p.x - sj.x) ^ 2 + (p.y - sj.y) ^ 2 ≤ (p.x - si.x) ^ 2 + (p.y - si.y) ^ 2 := by
  have key : ((bisectorLineB si sj).x - (bisectorLineA si sj).x) * (p.y - (bisectorLineA si sj).y)
      - ((bisectorLineB si sj).y - (bisectorLineA si sj).y) * (p.x - (bisectorLineA si sj).x)
      = ((p.x - si.x) ^ 2 + (p.y - si.y) ^ 2) - ((p.x - sj.x) ^ 2 + (p.y - sj.y) ^ 2) := by
    simp only [bisectorLineA, bisectorLineB]
    ring
  unfold isInside
  rw [decide_eq_true_eq, key, ge_iff_le, sub_nonneg]

/-- Claim C3: in `computeVoronoiCells`, the half-plane clip for the pair of
seeds `(0,0)` and `(2,0)` rejects seed `i = (0,0)` itself and keeps seed
`j = (2,0)`: the clip is oriented to keep seed `j`'s side of the bisector,
not seed `i`'s side as the specification states. -/
theorem C3_bisector_clip_rejects_own_seed :
    isInside (⟨0, 0⟩ : Pt ℚ) (bisectorLineA ⟨0, 0⟩ ⟨2, 0⟩) (bisectorLineB ⟨0, 0⟩ ⟨2, 0⟩)
        = false ∧
      isInside (⟨2, 0⟩ : Pt ℚ) (bisectorLineA ⟨0, 0⟩ ⟨2, 0⟩) (bisectorLineB ⟨0, 0⟩ ⟨2, 0⟩)
        = true := by
  constructor <;> with_unfolding_all decide

/-- Claim C10 (amended): an invalid difficulty resolves to the medium count
8 exactly when its string is neither an own key nor an `Object.prototype`
member; numeric difficulties (and `medium` itself, covering the
omitted-argument default) resolve to 8; but for an inherited prototype
member the truthy member survives the `||` and the sampling loop performs
zero iterations — the count 8 is NOT used. -/
theorem C10_invalid_difficulty_resolution :
    (∀ s : String, s ≠ ("easy") → s ≠ ("medium") → s ≠ ("hard") →
      s ∉ OBJECT_PROTOTYPE_KEYS → resolvePieceVal (.str s) = .num 8) ∧
    (∀ q : ℚ, resolvePieceVal (.num q) = .num 8) ∧
    resolvePieceVal (.str ("medium")) = .num 8 ∧
    (∀ s ∈ OBJECT_PROTOTYPE_KEYS,
      resolvePieceVal (.str s) = .protoMember ∧
      samplingN (resolvePieceVal (.str s)) = 0) := by
  refine ⟨fun s h1 h2 h3 h4 => ?_, fun q => rfl, rfl, fun s hs => ?_⟩
  · simp [resolvePieceVal, PIECE_COUNTS_lookup, h1, h2, h3, h4]
  · have h1 : s ≠ ("easy") := by rintro rfl; revert hs; decide
    have h2 : s ≠ ("medium") := by rintro rfl; revert hs; decide
    have h3 : s ≠ ("hard") := by rintro rfl; revert hs; decide
    have hv : resolvePieceVal (.str s) = .protoMember := by
      simp [resolvePieceVal, PIECE_COUNTS_lookup, h1, h2, h3, hs]
    exact ⟨hv, by rw [hv]; rfl⟩

/-- Witness for claim C10 at the invalid non-prototype string `expert` and
the prototype member `valueOf`. -/
theorem C10_resolution_witness :
    resolvePieceVal (.str ("expert")) = .num 8 ∧
    resolvePieceVal (.str ("valueOf")) = .protoMember ∧
    samplingN (resolvePieceVal (.str ("valueOf"))) = 0 :=
  ⟨C10_invalid_difficulty_resolution.1 ("expert")
      (by decide) (by decide) (by decide) (by decide),
    (C10_invalid_difficulty_resolution.2.2.2 ("valueOf") (by decide)).1,
    (C10_invalid_difficulty_resolution.2.2.2 ("valueOf") (by decide)).2⟩

/-- Counterexample to claim C10 as stated: the difficulty string `toString`
is none of `easy`/`medium`/`hard`, yet the member access walks the
prototype chain to the inherited truthy `Object.prototype.toString`, the
`||` does not fall back to medium, the sampling loop performs zero
iterations (its `NaN` comparisons are false), and on a concrete triangle
the seeded rng is never drawn and the seeds are the three fallback points —
not the piece count 8. -/
theorem C10_prototype_member_counterexample :
    resolvePieceVal (.str ("toString")) = .protoMember ∧
    (PieceVal.protoMember ≠ .num 8) ∧
    samplingN (resolvePieceVal (.str ("toString"))) = 0 ∧
    (generateSeeds [(⟨0, 0⟩ : Pt ℚ), ⟨100, 0⟩, ⟨0, 100⟩] (.str ("toString")) (some 42)
        ambZero).1 = fallbackSeeds [⟨0, 0⟩, ⟨100, 0⟩, ⟨0, 100⟩] ∧
    (generateSeeds [(⟨0, 0⟩ : Pt ℚ), ⟨100, 0⟩, ⟨0, 100⟩] (.str ("toString")) (some 42)
        ambZero).2 = rngInit (some 42) := by
  refine ⟨by with_unfolding_all decide, by decide, by with_unfolding_all decide, ?_, ?_⟩ <;>
    with_unfolding_all decide

/-- The sampling loop makes at most `att + fuel` attempts. -/
theorem randomPointsInPolygonGo_attempts_le {σ : Type} (polygon : List (Pt ℚ))
    (bounds : Bounds ℚ) (n : ℕ) (next : σ → ℚ × σ) :
    ∀ (fuel : ℕ) (r : σ) (pts : List (Pt ℚ)) (att : ℕ),
      (randomPointsInPolygonGo polygon bounds n next fuel r pts att).2.2 ≤ att + fuel := by
  intro fuel
  induction fuel with
  | zero => intro r pts att; simp [randomPointsInPolygonGo]
  | succ m ih =>
    intro r pts att
    simp only [randomPointsInPolygonGo]
    split
    · simp
    · split
      · exact le_trans (ih _ _ _) (by omega)
      · exact le_trans (ih _ _ _) (by omega)

/-- The sampling loop never collects more than `n` points. -/
theorem randomPointsInPolygonGo_length_le {σ : Type} (polygon : List (Pt ℚ))
    (bounds : Bounds ℚ) (n : ℕ) (next : σ → ℚ × σ) :
    ∀ (fuel : ℕ) (r : σ) (pts : List (Pt ℚ)) (att : ℕ), pts.length ≤ n →
      (randomPointsInPolygonGo polygon bounds n next fuel r pts att).1.length ≤ n := by
  intro fuel
  induction fuel with
  | zero => intro r pts att h; simpa [randomPointsInPolygonGo] using h
  | succ m ih =>
    intro r pts att h
    simp only [randomPointsInPolygonGo]
    split
    · simpa using h
    · rename_i hlt
      split
      · exact ih _ _ _ (by simp; omega)
      · exact ih _ _ _ h

/-- Every difficulty's count bound is at least 3 (5, 8 or 13). -/
theorem resolvePieceCount_ge_three (d : Difficulty) : 3 ≤ resolvePieceCount d := by
  rcases d with s | q
  · simp only [resolvePieceCount, resolvePieceVal, PIECE_COUNTS_lookup]
    split_ifs <;> norm_num
  · norm_num [resolvePieceCount, resolvePieceVal, PIECE_COUNTS_lookup]

/-- The sampling target never exceeds the count bound. -/
theorem samplingN_le_resolvePieceCount (d : Difficulty) :
    samplingN (resolvePieceVal d) ≤ resolvePieceCount d := by
  unfold resolvePieceCount
  cases resolvePieceVal d with
  | num n => exact le_refl n
  | protoMember => norm_num [samplingN]

/-- `computeVoronoiCells` returns one cell per seed. -/
theorem computeVoronoiCells_length (seeds polygon : List (Pt ℚ)) :
    (computeVoronoiCells seeds polygon).length = seeds.length := by
  simp [computeVoronoiCells]

/-- One Lloyd iteration preserves the number of seeds. -/
theorem lloydStep_length (polygon current : List (Pt ℚ)) :
    (lloydStep polygon current).length = current.length := by
  simp [lloydStep, computeVoronoiCells_length]

/-- `lloydRelax` preserves the number of seeds. -/
theorem lloydRelax_length (seeds polygon : List (Pt ℚ)) (iterations : ℕ) :
    (lloydRelax seeds polygon iterations).length = seeds.length := by
  induction iterations with
  | zero => simp [lloydRelax]
  | succ m ih =>
    unfold lloydRelax at ih ⊢
    rw [Function.iterate_succ_apply', lloydStep_length]
    exact ih

/-- Claim C8: seed sampling performs at most `200 × n` rejection attempts;
when it finds fewer than 3 interior points, the seed set is replaced by the
three fixed points around the bounding-box center; hence relaxation and
Voronoi computation always receive at least 3 seeds (and relaxation keeps
that count, Voronoi yields one cell per seed), so generation of the seed
phase is total. -/
theorem C8_bounded_sampling_and_fallback :
    (∀ (σ : Type) (poly : List (Pt ℚ)) (n : ℕ) (next : σ → ℚ × σ) (r0 : σ),
      (randomPointsInPolygon poly n next r0).2.2 ≤ n * 200) ∧
    (∀ (outline : List (Pt ℚ)) (d : Difficulty) (seed : Option ℤ) (amb : ℕ → ℚ),
      (randomPointsInPolygon outline (resolvePieceCount d) (rngNext amb)
          (rngInit seed)).1.length < 3 →
        (generateSeeds outline d seed amb).1 = fallbackSeeds outline) ∧
    (∀ (outline : List (Pt ℚ)) (d : Difficulty) (seed : Option ℤ) (amb : ℕ → ℚ),
      3 ≤ (generateSeeds outline d seed amb).1.length) ∧
    (∀ (seeds polygon : List (Pt ℚ)) (iterations : ℕ),
      (lloydRelax seeds polygon iterations).length = seeds.length) ∧
    (∀ (seeds polygon : List (Pt ℚ)),
      (computeVoronoiCells seeds polygon).length = seeds.length) := by
  refine ⟨?_, ?_, ?_, lloydRelax_length, computeVoronoiCells_length⟩
  · intro σ poly n next r0
    simpa using randomPointsInPolygonGo_attempts_le poly (polygonBounds poly) n next
      (n * 200) r0 [] 0
  · intro outline d seed amb h
    simp only [generateSeeds]
    cases hv : resolvePieceVal d with
    | num n =>
      have hn : resolvePieceCount d = n := by
        unfold resolvePieceCount
        rw [hv]
      rw [hn] at h
      simp only [samplingN]
      rw [if_pos h]
    | protoMember =>
      simp only [samplingN]
      have hz : (randomPointsInPolygon outline 0 (rngNext amb) (rngInit seed)).1 = [] := rfl
      rw [if_pos (by rw [hz]; norm_num)]
  · intro outline d seed amb
    simp only [generateSeeds]
    split
    · simp [fallbackSeeds]
    · omega

/-- Witness for claim C8: on the sliver triangle (whose interior avoids the
sample lattice), sampling with seed 42 finds no interior points and the
fallback seeds are used. -/
theorem C8_bounded_sampling_witness :
    (generateSeeds sliverTriangle (.str ("easy")) (some 42) ambZero).1 =
      fallbackSeeds sliverTriangle :=
  C8_bounded_sampling_and_fallback.2.1 sliverTriangle (.str ("easy")) (some 42) ambZero
    (by
      rw [show rngInit (some 42) = RngS.seeded (mulberry32Init 42) from rfl,
        (randomPointsInPolygon_sliver ambZero (resolvePieceCount (.str ("easy")))
          (mulberry32Init 42)).1]
      simp)

/-- Clipping the empty polygon against an edge yields the empty polygon. -/
theorem clipEdge_nil (e1 e2 : Pt ℚ) : clipEdge e1 e2 [] = [] := rfl

/-- Claim C4 (amended): `clipPolygon` halts with the empty polygon whenever
the intermediate subject becomes empty at some clipping stage — the JS
early-exit tests `output.length === 0`, not `< 3`. -/
theorem C4_clip_empty_intermediate_gives_empty :
    ∀ (subject clip : List (Pt ℚ)) (k : ℕ),
      3 ≤ subject.length → 3 ≤ clip.length →
      ((clip.zip (clip.rotate 1)).take k).foldl
        (fun output e => clipEdge e.1 e.2 output) subject = [] →
      clipPolygon subject clip = [] := by
  intro subject clip k hs hc h
  unfold clipPolygon
  rw [if_neg (by push_neg; omega)]
  rw [← List.take_append_drop k (clip.zip (clip.rotate 1)), List.foldl_append, h]
  generalize List.drop k (clip.zip (clip.rotate 1)) = rest
  induction rest with
  | nil => rfl
  | cons e es ih => rw [List.foldl_cons, clipEdge_nil]; exact ih

/-- Witness for claim C4: a triangle lying entirely below the clip square
empties at the first clipping stage, and `clipPolygon` returns `[]`. -/
theorem C4_clip_empty_witness :
    clipPolygon [(⟨1, -5⟩ : Pt ℚ), ⟨2, -5⟩, ⟨1, -6⟩] [⟨0, 0⟩, ⟨10, 0⟩, ⟨10, 10⟩, ⟨0, 10⟩]
      = [] :=
  C4_clip_empty_intermediate_gives_empty
    [⟨1, -5⟩, ⟨2, -5⟩, ⟨1, -6⟩] [⟨0, 0⟩, ⟨10, 0⟩, ⟨10, 10⟩, ⟨0, 10⟩] 1
    (by decide) (by decide) (by with_unfolding_all decide)

set_option maxRecDepth 10000 in
set_option maxHeartbeats 1000000 in
/-- Counterexample to claim C4 as stated: a subject triangle with two
vertices within `10⁻¹²` of the first clip edge makes both boundary-crossing
intersections hit the `|denom| < 1e-10` guard of `lineIntersection`, so
after the first clipping stage the intermediate subject has exactly one
vertex (below 3), yet clipping does not halt with an empty result:
`clipPolygon` returns a 1-vertex polygon. -/
theorem C4_clip_returns_one_vertex :
    (clipPolygon [(⟨0, 1/10^12⟩ : Pt ℚ), ⟨10, -(1/10^12)⟩, ⟨5, -(1/10^12)⟩]
        [⟨0, 0⟩, ⟨10, 0⟩, ⟨10, 10⟩, ⟨0, 10⟩]).length = 1 ∧
    ((([(⟨0, 0⟩ : Pt ℚ), ⟨10, 0⟩, ⟨10, 10⟩, ⟨0, 10⟩].zip
        ([(⟨0, 0⟩ : Pt ℚ), ⟨10, 0⟩, ⟨10, 10⟩, ⟨0, 10⟩].rotate 1)).take 1).foldl
      (fun output e => clipEdge e.1 e.2 output)
      [(⟨0, 1/10^12⟩ : Pt ℚ), ⟨10, -(1/10^12)⟩, ⟨5, -(1/10^12)⟩]).length = 1 := by
  constructor <;> with_unfolding_all decide

/-- JS normalization of an angle into `[0, 2π)` (`x % (2π)`, plus `2π` if
negative) agrees with `x - 2π·⌊x/(2π)⌋`. -/
theorem jsNormalize_eq (x : ℝ) :
    (if jsMod x (Real.pi * 2) < 0 then jsMod x (Real.pi * 2) + Real.pi * 2
     else jsMod x (Real.pi * 2)) = x - 2 * Real.pi * (⌊x / (2 * Real.pi)⌋ : ℝ) := by
  have hy : (0 : ℝ) < Real.pi * 2 := by positivity
  have hy' : (Real.pi * 2 : ℝ) ≠ 0 := ne_of_gt hy
  set y : ℝ := Real.pi * 2 with hydef
  set t : ℝ := x / y with htdef
  have hxt : y * t = x := by
    rw [htdef]; field_simp
  have hfr : x - y * (⌊t⌋ : ℝ) = y * Int.fract t := by
    rw [Int.fract, mul_sub, hxt]
  have hgoal : x - 2 * Real.pi * (⌊x / (2 * Real.pi)⌋ : ℝ) = y * Int.fract t := by
    rw [← hfr, hydef]
    have h2 : x / (Real.pi * 2) = x / (2 * Real.pi) := by ring_nf
    rw [htdef, h2]
    ring_nf
  rw [hgoal]
  unfold jsMod jsTrunc
  rw [← htdef]
  by_cases h0 : 0 ≤ t
  · rw [if_pos h0, hfr]
    rw [if_neg (not_lt.mpr (mul_nonneg hy.le (Int.fract_nonneg t)))]
  · rw [if_neg h0]
    rcases Int.fract_eq_zero_or_add_one_sub_ceil t with hf | hf
    · have hfl : t = (⌊t⌋ : ℝ) := by
        have := Int.fract t
        rw [Int.fract] at hf
        linarith [hf]
      have hceil : (⌈t⌉ : ℝ) = t := by
        rw [hfl, Int.ceil_intCast]
      have hmod : x - y * (⌈t⌉ : ℝ) = 0 := by
        rw [hceil, hxt, sub_self]
      rw [hmod, hf, if_neg (lt_irrefl 0), mul_zero]
    · have hceil : (⌈t⌉ : ℝ) = t + 1 - Int.fract t := by
        have : Int.fract t = t + 1 - (⌈t⌉ : ℝ) := hf
        linarith
      have hmod : x - y * (⌈t⌉ : ℝ) = y * (Int.fract t - 1) := by
        rw [hceil, mul_sub, mul_sub, mul_add, hxt]; ring
      rw [hmod]
      have hneg : y * (Int.fract t - 1) < 0 :=
        mul_neg_of_pos_of_neg hy (by linarith [Int.fract_lt_one t])
      rw [if_pos hneg]
      ring

/-- Helper for the claim C5 boundary cases: the normalized rotation of a
small positive angle is the angle itself. -/
theorem floor_small_angle (r : ℝ) (h0 : 0 ≤ r) (h1 : r < 1) :
    (⌊r / (2 * Real.pi)⌋ : ℤ) = 0 := by
  have hp : (0 : ℝ) < 2 * Real.pi := by positivity
  rw [Int.floor_eq_zero_iff]
  constructor
  · exact div_nonneg h0 hp.le
  · rw [div_lt_one hp]
    have := Real.pi_gt_three
    linarith

/-- Claim C5: `checkSnap` is true iff the Euclidean distance between
`currentPosition` and `anchor + centroid` is below `snapDistance` and the
rotation, normalized into `[0, 2π)`, is within `snapAngleTolerance` of 0 on
either side of the 0/2π wrap; with `snapDistance = 35` and tolerance `0.4`,
a fragment at distance 34 with rotation 0.39 snaps, while distance 36 or
rotation 0.41 does not. -/
theorem C5_checkSnap_characterization :
    (∀ (f : Fragment) (anchor : Pt ℝ) (sd tol : ℝ),
      checkSnap f anchor sd tol = true ↔ checkSnapSpec f anchor sd tol) ∧
    checkSnap (Fragment.mk 0 [] ⟨0, 0⟩ ⟨0, 0⟩ ⟨34, 0⟩ 0.39 false 0) ⟨0, 0⟩ 35 0.4 = true ∧
    checkSnap (Fragment.mk 0 [] ⟨0, 0⟩ ⟨0, 0⟩ ⟨36, 0⟩ 0.39 false 0) ⟨0, 0⟩ 35 0.4 = false ∧
    checkSnap (Fragment.mk 0 [] ⟨0, 0⟩ ⟨0, 0⟩ ⟨34, 0⟩ 0.41 false 0) ⟨0, 0⟩ 35 0.4 = false := by
  have hiff : ∀ (f : Fragment) (anchor : Pt ℝ) (sd tol : ℝ),
      checkSnap f anchor sd tol = true ↔ checkSnapSpec f anchor sd tol := by
    intro f anchor sd tol
    unfold checkSnap checkSnapSpec
    simp only [Bool.and_eq_true, Bool.or_eq_true, decide_eq_true_eq]
    rw [jsNormalize_eq]
    ring_nf
    exact and_congr Iff.rfl
      (or_congr Iff.rfl ⟨fun h => by linarith, fun h => by linarith⟩)
  refine ⟨hiff, ?_, ?_, ?_⟩
  · rw [hiff]
    constructor
    · have h34 : ((34 : ℝ) - (0 + 0)) ^ 2 + ((0 : ℝ) - (0 + 0)) ^ 2 = 34 ^ 2 := by norm_num
      rw [h34, Real.sqrt_sq (by norm_num : (0:ℝ) ≤ 34)]
      norm_num
    · rw [floor_small_angle 0.39 (by norm_num) (by norm_num)]
      left
      norm_num
  · rw [Bool.eq_false_iff, Ne, hiff]
    rintro ⟨hd, -⟩
    rw [show ((36 : ℝ) - (0 + 0)) ^ 2 + ((0 : ℝ) - (0 + 0)) ^ 2 = 36 ^ 2 from by norm_num,
      Real.sqrt_sq (by norm_num : (0:ℝ) ≤ 36)] at hd
    norm_num at hd
  · rw [Bool.eq_false_iff, Ne, hiff]
    rintro ⟨-, hang⟩
    rw [floor_small_angle 0.41 (by norm_num) (by norm_num)] at hang
    have := Real.pi_gt_three
    rcases hang with h | h
    · norm_num at h
    · norm_num at h
      linarith

/-- The ray-casting test commutes with the cast `ℚ → ℝ`: evaluating
`pointInPolygon` on rational data over `ℝ` agrees with the executable
rational computation. -/
theorem pointInPolygon_ratCast (p : Pt ℚ) (poly : List (Pt ℚ)) :
    pointInPolygon (ptCast p) (poly.map ptCast) = pointInPolygon p poly := by
  unfold pointInPolygon
  rw [List.length_map, ← List.map_rotate, List.zip_map, List.foldl_map]
  apply List.foldl_ext
  intro b pq hmem
  rcases pq with ⟨vi, vj⟩
  simp only [Prod.map, ptCast]
  have h1 : decide ((vi.y : ℝ) > (p.y : ℝ)) = decide (vi.y > p.y) :=
    decide_eq_decide.mpr (by norm_cast)
  have h2 : decide ((vj.y : ℝ) > (p.y : ℝ)) = decide (vj.y > p.y) :=
    decide_eq_decide.mpr (by norm_cast)
  have h3 : decide ((p.x : ℝ) < ((vj.x : ℝ) - (vi.x : ℝ)) * ((p.y : ℝ) - (vi.y : ℝ)) /
      ((vj.y : ℝ) - (vi.y : ℝ)) + (vi.x : ℝ)) =
      decide (p.x < (vj.x - vi.x) * (p.y - vi.y) / (vj.y - vi.y) + vi.x) :=
    decide_eq_decide.mpr (by norm_cast)
  simp only [h1, h2, h3]

/-- Claim C9: `hitTestFragment` maps the point into the fragment's local
frame (translate by `-currentPosition`, rotate by `-rotation`) and tests
containment against the polygon offset by `-centroid`; for a square
fragment of side 10 centered at the origin with rotation 0 at position
`(100, 100)`, the point `(100, 100)` hits and `(200, 200)` does not. -/
theorem C9_hitTest_characterization :
    (∀ (p : Pt ℝ) (f : Fragment),
      hitTestFragment p f = true ↔ hitTestSpec p f) ∧
    hitTestFragment ⟨100, 100⟩
      (Fragment.mk 0 (([⟨-5, -5⟩, ⟨5, -5⟩, ⟨5, 5⟩, ⟨-5, 5⟩] : List (Pt ℚ)).map ptCast)
        ⟨0, 0⟩ ⟨0, 0⟩ ⟨100, 100⟩ 0 false 0) = true ∧
    hitTestFragment ⟨200, 200⟩
      (Fragment.mk 0 (([⟨-5, -5⟩, ⟨5, -5⟩, ⟨5, 5⟩, ⟨-5, 5⟩] : List (Pt ℚ)).map ptCast)
        ⟨0, 0⟩ ⟨0, 0⟩ ⟨100, 100⟩ 0 false 0) = false := by
  refine ⟨?_, ?_, ?_⟩
  · intro p f
    unfold hitTestFragment hitTestSpec transformPoint
    simp only [add_zero]
  · unfold hitTestFragment
    simp only [neg_zero, Real.cos_zero, Real.sin_zero, mul_one, mul_zero, sub_zero]
    have hkey : pointInPolygon (ptCast (⟨0, 0⟩ : Pt ℚ))
        (([⟨-5, -5⟩, ⟨5, -5⟩, ⟨5, 5⟩, ⟨-5, 5⟩] : List (Pt ℚ)).map ptCast) = true := by
      rw [pointInPolygon_ratCast]
      with_unfolding_all decide
    have hid : (fun v : Pt ℝ => Pt.mk v.x v.y) = fun v => v := by
      funext v
      rfl
    rw [hid, List.map_id']
    convert hkey using 2; norm_num [ptCast]
  · unfold hitTestFragment
    simp only [neg_zero, Real.cos_zero, Real.sin_zero, mul_one, mul_zero, sub_zero]
    have hkey : pointInPolygon (ptCast (⟨100, 100⟩ : Pt ℚ))
        (([⟨-5, -5⟩, ⟨5, -5⟩, ⟨5, 5⟩, ⟨-5, 5⟩] : List (Pt ℚ)).map ptCast) = false := by
      rw [pointInPolygon_ratCast]
      with_unfolding_all decide
    have hid : (fun v : Pt ℝ => Pt.mk v.x v.y) = fun v => v := by
      funext v
      rfl
    rw [hid, List.map_id']
    convert hkey using 2; norm_num [ptCast]

/-- `buildFragments` yields exactly one fragment per kept cell. -/
theorem buildFragments_length (amb : ℕ → ℚ) :
    ∀ (kept : List (ℕ × List (Pt ℚ))) (k : ℕ),
      (buildFragments amb kept k).length = kept.length := by
  intro kept
  induction kept with
  | nil => intro k; rfl
  | cons ic rest ih =>
    intro k
    simp only [buildFragments, List.length_cons, ih]

/-- The sampled-or-fallback seed list never exceeds the requested count. -/
theorem generateSeeds_length_le (outline : List (Pt ℚ)) (d : Difficulty)
    (seed : Option ℤ) (amb : ℕ → ℚ) :
    (generateSeeds outline d seed amb).1.length ≤ resolvePieceCount d := by
  unfold generateSeeds
  dsimp only
  split
  · have := resolvePieceCount_ge_three d
    simp [fallbackSeeds]
    omega
  · exact le_trans
      (randomPointsInPolygonGo_length_le outline (polygonBounds outline)
        (samplingN (resolvePieceVal d)) (rngNext amb)
        (samplingN (resolvePieceVal d) * 200) (rngInit seed) [] 0 (by simp))
      (samplingN_le_resolvePieceCount d)

/-- At most the requested number of cells is kept. -/
theorem generateKeptCells_length_le (outline : List (Pt ℚ)) (d : Difficulty)
    (seed : Option ℤ) (amb : ℕ → ℚ) :
    (generateKeptCells outline d seed amb).1.length ≤ resolvePieceCount d := by
  unfold generateKeptCells keptCellsOfSeeds
  refine le_trans (List.length_filterMap_le _ _) ?_
  rw [List.enum_length, computeVoronoiCells_length, lloydRelax_length]
  exact generateSeeds_length_le outline d seed amb

/-- Every kept cell has at least 3 vertices and absolute area at least 1% of
the outline's absolute area. -/
theorem mem_generateKeptCells (outline : List (Pt ℚ)) (d : Difficulty)
    (seed : Option ℤ) (amb : ℕ → ℚ) :
    ∀ ic ∈ (generateKeptCells outline d seed amb).1,
      3 ≤ ic.2.length ∧ |polygonArea outline| * (1 / 100) ≤ |polygonArea ic.2| := by
  intro ic hic
  unfold generateKeptCells keptCellsOfSeeds at hic
  simp only at hic
  obtain ⟨a, ha, hfa⟩ := List.mem_filterMap.mp hic
  split_ifs at hfa with h1 h2
  rcases Option.some.inj hfa with rfl
  exact ⟨by omega, not_lt.mp h2⟩

/-- A list of rationals each bounded below by `c` has sum at least
`length · c`. -/
theorem length_mul_le_sum (l : List ℚ) (c : ℚ) (h : ∀ x ∈ l, c ≤ x) :
    (l.length : ℚ) * c ≤ l.sum := by
  induction l with
  | nil => simp
  | cons a t ih =>
    have ha := h a (List.mem_cons_self a t)
    have ht := ih (fun x hx => h x (List.mem_cons_of_mem a hx))
    simp only [List.length_cons, List.sum_cons]
    push_cast
    linarith

set_option maxRecDepth 100000 in
set_option maxHeartbeats 4000000 in
/-- The sliver triangle at difficulty hard (13 pieces), seed 42: sampling
misses, the fallback seeds are used, and exactly 2 cells are kept. -/
theorem sliver_hard_kept_length :
    (generateKeptCells sliverTriangle (.str ("hard")) (some 42) ambZero).1.length = 2 := by
  rw [generateKeptCells_sliver]
  with_unfolding_all decide

/-- Claim C7: `generateFragments` returns at most the requested number of
fragments; every kept cell (from which a fragment is built) has absolute
area at least 1% of the outline's total absolute area; and for a triangle
outline at piece count 13 (difficulty hard) the call terminates with a
positive number of fragments no greater than 13. -/
theorem C7_fragment_count_and_area_filter :
    (∀ (outline : List (Pt ℚ)) (d : Difficulty) (seed : Option ℤ) (amb : ℕ → ℚ),
      (generateFragments outline d seed amb).length ≤ resolvePieceCount d) ∧
    (∀ (outline : List (Pt ℚ)) (d : Difficulty) (seed : Option ℤ) (amb : ℕ → ℚ),
      ((generateKeptCells outline d seed amb).1.all
        (fun ic => decide (|polygonArea outline| * (1 / 100) ≤ |polygonArea ic.2|)))
          = true) ∧
    resolvePieceCount (.str ("hard")) = 13 ∧
    0 < (generateFragments sliverTriangle (.str ("hard")) (some 42) ambZero).length ∧
    (generateFragments sliverTriangle (.str ("hard")) (some 42) ambZero).length ≤ 13 := by
  have hlen : ∀ (outline : List (Pt ℚ)) (d : Difficulty) (seed : Option ℤ) (amb : ℕ → ℚ),
      (generateFragments outline d seed amb).length ≤ resolvePieceCount d := by
    intro outline d seed amb
    unfold generateFragments
    rw [buildFragments_length]
    exact generateKeptCells_length_le outline d seed amb
  have hsliver : (generateFragments sliverTriangle (.str ("hard")) (some 42) ambZero).length
      = 2 := by
    unfold generateFragments
    rw [buildFragments_length]
    exact sliver_hard_kept_length
  refine ⟨hlen, ?_, rfl, ?_, ?_⟩
  · intro outline d seed amb
    rw [List.all_eq_true]
    intro ic hic
    exact decide_eq_true (mem_generateKeptCells outline d seed amb ic hic).2
  · rw [hsliver]; norm_num
  · rw [hsliver]; norm_num

set_option maxRecDepth 100000 in
set_option maxHeartbeats 12000000 in
/-- Counterexample to claim C2 as stated: the thin non-convex arrowhead
quadrilateral is a simple polygon with positive area, yet at difficulty
easy (N = 5, in [3,20]) with seed 42 the sum of the absolute areas of the
cells underlying the returned fragments differs from the outline's area by
more than 1e-3 relative (every cell is clipped away or discarded, so the
sum is 0). -/
theorem C2_area_sum_counterexample :
    isSimplePolygon arrowQuad = true ∧
    resolvePieceCount (.str ("easy")) = 5 ∧
    0 < |polygonArea arrowQuad| ∧
    |polygonArea arrowQuad| * (1 / 1000) <
      abs (((generateKeptCells arrowQuad (.str ("easy")) (some 42) ambZero).1.map
          (fun ic => |polygonArea ic.2|)).sum - |polygonArea arrowQuad|) := by
  refine ⟨by with_unfolding_all decide, rfl, by with_unfolding_all decide, ?_⟩
  with_unfolding_all decide

/-- Each cell underlying a returned fragment has absolute area at least 1%
of the outline's absolute area, so the sum of the underlying cell areas is
at least `count · 1% · |outline area|`. -/
theorem keptCells_area_lower_bound :
    ∀ (outline : List (Pt ℚ)) (d : Difficulty) (seed : Option ℤ) (amb : ℕ → ℚ),
      ((generateKeptCells outline d seed amb).1.length : ℚ) *
          (|polygonArea outline| * (1 / 100)) ≤
        ((generateKeptCells outline d seed amb).1.map
          (fun ic => |polygonArea ic.2|)).sum := by
  intro outline d seed amb
  have h := mem_generateKeptCells outline d seed amb
  have hb := length_mul_le_sum
    ((generateKeptCells outline d seed amb).1.map (fun ic => |polygonArea ic.2|))
    (|polygonArea outline| * (1 / 100))
    (by
      intro x hx
      obtain ⟨ic, hic, rfl⟩ := List.mem_map.mp hx
      exact (h ic hic).2)
  simpa using hb


theorem tornNoiseSubFold_append (amount : ℝ) (amb : ℕ → ℝ) (a b : Pt ℝ) (subdiv : ℕ) :
    ∀ (idxs : List ℕ) (acc : List (Pt ℝ) × ℕ),
      ∃ t, (idxs.foldl (tornNoiseSubStep amount amb a b subdiv) acc).1 = acc.1 ++ t := by
  intro idxs
  induction idxs with
  | nil => intro acc; exact ⟨[], by simp⟩
  | cons i rest ih =>
    intro acc
    rw [List.foldl_cons]
    obtain ⟨t, ht⟩ := ih (tornNoiseSubStep amount amb a b subdiv acc i)
    rw [ht]
    unfold tornNoiseSubStep
    dsimp only
    split
    · exact ⟨_, List.append_assoc _ _ _⟩
    · exact ⟨_, List.append_assoc _ _ _⟩

theorem tornNoiseEdgeFold_append (amount : ℝ) (amb : ℕ → ℝ) (subdiv : ℕ) :
    ∀ (pairs : List (Pt ℝ × Pt ℝ)) (acc : List (Pt ℝ) × ℕ),
      ∃ t, (pairs.foldl (tornNoiseEdgeStep amount amb subdiv) acc).1 = acc.1 ++ t := by
  intro pairs
  induction pairs with
  | nil => intro acc; exact ⟨[], by simp⟩
  | cons ab rest ih =>
    intro acc
    rw [List.foldl_cons]
    obtain ⟨t, ht⟩ := ih (tornNoiseEdgeStep amount amb subdiv acc ab)
    rw [ht]
    unfold tornNoiseEdgeStep
    obtain ⟨u, hu⟩ := tornNoiseSubFold_append amount amb ab.1 ab.2 subdiv
      (List.range subdiv) (acc.1 ++ [ab.1], acc.2)
    rw [hu]
    exact ⟨[ab.1] ++ u ++ t, by simp⟩

theorem addTornEdgeNoise_distinguish (u0 u1 u2 : Pt ℝ) (us : List (Pt ℝ)) (k : ℕ)
    (amb1 amb2 : ℕ → ℝ) (h1 : amb1 k = 1 / 2) (h2 : amb2 k = 0) (hdy : u1.y ≠ u0.y) :
    (addTornEdgeNoise (u0 :: u1 :: u2 :: us) 2 1 amb1 k).1 ≠
      (addTornEdgeNoise (u0 :: u1 :: u2 :: us) 2 1 amb2 k).1 := by
  have hlen0 : 0 < Real.sqrt ((u1.x - u0.x) * (u1.x - u0.x) +
      (u1.y - u0.y) * (u1.y - u0.y)) := by
    apply Real.sqrt_pos.mpr
    have hy : 0 < (u1.y - u0.y) * (u1.y - u0.y) := mul_self_pos.mpr (sub_ne_zero.mpr hdy)
    nlinarith [mul_self_nonneg (u1.x - u0.x)]
  have hrot : (u0 :: u1 :: u2 :: us).rotate 1 = (u1 :: u2 :: us) ++ [u0] := by
    rw [List.rotate_cons_succ, List.rotate_zero]
  have hsecond : ∀ amb : ℕ → ℝ,
      (addTornEdgeNoise (u0 :: u1 :: u2 :: us) 2 1 amb k).1[1]? =
        some (Pt.mk
          (u0.x + (u1.x - u0.x) * (((0 : ℕ) : ℝ) + 1) / (((1 : ℕ) : ℝ) + 1) +
            -(u1.y - u0.y) / Real.sqrt ((u1.x - u0.x) * (u1.x - u0.x) +
              (u1.y - u0.y) * (u1.y - u0.y)) * ((amb k - 1 / 2) * 2 * 2))
          (u0.y + (u1.y - u0.y) * (((0 : ℕ) : ℝ) + 1) / (((1 : ℕ) : ℝ) + 1) +
            (u1.x - u0.x) / Real.sqrt ((u1.x - u0.x) * (u1.x - u0.x) +
              (u1.y - u0.y) * (u1.y - u0.y)) * ((amb k - 1 / 2) * 2 * 2))) := by
    intro amb
    unfold addTornEdgeNoise
    rw [if_neg (by simp)]
    rw [hrot, List.cons_append, List.zip_cons_cons, List.foldl_cons]
    have hstep : tornNoiseEdgeStep 2 amb 1 ([], k) (u0, u1) =
        ([u0, Pt.mk
          (u0.x + (u1.x - u0.x) * (((0 : ℕ) : ℝ) + 1) / (((1 : ℕ) : ℝ) + 1) +
            -(u1.y - u0.y) / Real.sqrt ((u1.x - u0.x) * (u1.x - u0.x) +
              (u1.y - u0.y) * (u1.y - u0.y)) * ((amb k - 1 / 2) * 2 * 2))
          (u0.y + (u1.y - u0.y) * (((0 : ℕ) : ℝ) + 1) / (((1 : ℕ) : ℝ) + 1) +
            (u1.x - u0.x) / Real.sqrt ((u1.x - u0.x) * (u1.x - u0.x) +
              (u1.y - u0.y) * (u1.y - u0.y)) * ((amb k - 1 / 2) * 2 * 2))], k + 1) := by
      unfold tornNoiseEdgeStep
      rw [show List.range 1 = [0] from by decide, List.foldl_cons, List.foldl_nil]
      unfold tornNoiseSubStep
      rw [if_pos]
      · simp
        constructor <;> ring
      · exact hlen0
    rw [hstep]
    obtain ⟨t, ht⟩ := tornNoiseEdgeFold_append 2 amb 1
      ((u1 :: u2 :: us).zip ((u2 :: us) ++ [u0])) ([u0, _], k + 1)
    rw [ht, List.getElem?_append_left (by simp)]
    rfl
  intro heq
  have hw := (hsecond amb1).symm.trans ((congrArg (fun l => l[1]?) heq).trans (hsecond amb2))
  rw [Option.some.injEq] at hw
  have hx := congrArg Pt.x hw
  simp only [h1, h2] at hx
  have hnx : -(u1.y - u0.y) / Real.sqrt ((u1.x - u0.x) * (u1.x - u0.x) +
      (u1.y - u0.y) * (u1.y - u0.y)) ≠ 0 :=
    div_ne_zero (neg_ne_zero.mpr (sub_ne_zero.mpr hdy)) (ne_of_gt hlen0)
  rw [show ((1:ℝ) / 2 - 1 / 2) * 2 * 2 = 0 from by norm_num, mul_zero, add_zero,
    show ((0:ℝ) - 1 / 2) * 2 * 2 = -2 from by norm_num] at hx
  have hzero : -(u1.y - u0.y) / Real.sqrt ((u1.x - u0.x) * (u1.x - u0.x) +
      (u1.y - u0.y) * (u1.y - u0.y)) * (-2) = 0 := by linarith
  rcases mul_eq_zero.mp hzero with h | h
  · exact hnx h
  · norm_num at h

set_option maxRecDepth 100000 in
set_option maxHeartbeats 4000000 in
/-- Claim C1: the seeded generation pipeline is NOT reproducible, contrary to
the specification: with the same outline, difficulty and integer seed 42, two
runs that differ only in the ambient `Math.random` stream (the all-1/2 stream
versus the all-0 stream) produce different fragment lists, because
`addTornEdgeNoise` draws its displacements from `Math.random` instead of the
seeded mulberry32 generator. -/
theorem C1_seeded_generation_not_reproducible :
    generateFragments sliverTriangle (.str ("easy")) (some 42) ambHalf ≠
      generateFragments sliverTriangle (.str ("easy")) (some 42) ambZero := by
  have hfc : firstCellCheck = true := by with_unfolding_all decide
  unfold firstCellCheck at hfc
  simp only [generateFragments, generateKeptCells_sliver]
  generalize hK : keptCellsOfSeeds sliverTriangle (fallbackSeeds sliverTriangle) = K at hfc ⊢
  rcases K with _ | ⟨⟨i, cell⟩, rest⟩
  · exact absurd hfc Bool.false_ne_true
  rcases cell with _ | ⟨v0, _ | ⟨v1, _ | ⟨v2, vs⟩⟩⟩
  · exact absurd hfc Bool.false_ne_true
  · exact absurd hfc Bool.false_ne_true
  · exact absurd hfc Bool.false_ne_true
  intro heq
  simp only [buildFragments, List.map_cons, List.cons.injEq, Fragment.mk.injEq] at heq
  obtain ⟨⟨-, hpoly, -⟩, -⟩ := heq
  have hdy : (ptCast v1).y ≠ (ptCast v0).y := by
    have h : ¬ v0.y = v1.y := of_decide_eq_true hfc
    simp only [ptCast, ne_eq, Rat.cast_inj]
    exact fun hh => h hh.symm
  exact addTornEdgeNoise_distinguish (ptCast v0) (ptCast v1) (ptCast v2) (vs.map ptCast) 0
    (fun n => ((ambHalf n : ℚ) : ℝ)) (fun n => ((ambZero n : ℚ) : ℝ))
    (by norm_num [ambHalf]) (by norm_num [ambZero]) hdy hpoly

/-! ### Interaction-layer lemmas (claim C6) -/

theorem mem_updateById_of_ne (l : List Fragment) (fid : ℕ) (g : Fragment → Fragment)
    (f : Fragment) (hf : f ∈ l) (hne : f.id ≠ fid) : f ∈ updateById l fid g := by
  unfold updateById
  exact List.mem_map.mpr ⟨f, hf, by rw [if_neg hne]⟩

theorem updateById_map_id (l : List Fragment) (fid : ℕ) (g : Fragment → Fragment)
    (hgid : ∀ x, (g x).id = x.id) :
    (updateById l fid g).map (fun f => f.id) = l.map (fun f => f.id) := by
  unfold updateById
  rw [List.map_map]
  apply List.map_congr_left
  intro x _
  simp only [Function.comp_apply]
  split
  · exact hgid x
  · rfl

theorem placed_update_id (l : List Fragment) (fid : ℕ) (g : Fragment → Fragment)
    (f' : Fragment) (h : f' ∈ updateById l fid g)
    (hgid : ∀ x, (g x).id = x.id) (hgp : ∀ x, (g x).isPlaced = x.isPlaced) :
    ∃ x ∈ l, x.id = f'.id ∧ x.isPlaced = f'.isPlaced := by
  unfold updateById at h
  obtain ⟨x, hx, rfl⟩ := List.mem_map.mp h
  refine ⟨x, hx, ?_⟩
  split
  · exact ⟨(hgid x).symm, (hgp x).symm⟩
  · exact ⟨rfl, rfl⟩

theorem update_placed_ne (l : List Fragment) (fid : ℕ) (g : Fragment → Fragment)
    (tid : ℕ) (hold : ∀ x ∈ l, x.isPlaced = true → x.id ≠ tid)
    (f' : Fragment) (hf' : f' ∈ updateById l fid g) (hp : f'.isPlaced = true)
    (hgid : ∀ x, (g x).id = x.id) (hgp : ∀ x, (g x).isPlaced = x.isPlaced) :
    f'.id ≠ tid := by
  obtain ⟨x, hx, hid, hpl⟩ := placed_update_id l fid g f' hf' hgid hgp
  rw [← hid]
  exact hold x hx (hpl.trans hp)

theorem findFragment_mem_unplaced (st : GameState) (pos : Pt ℝ) (f : Fragment)
    (h : findFragment st pos = some f) : f ∈ st.fragments ∧ f.isPlaced = false := by
  unfold findFragment at h
  have hmem := List.mem_of_find?_eq_some h
  rw [List.mem_mergeSort] at hmem
  obtain ⟨h1, h2⟩ := List.mem_filter.mp hmem
  exact ⟨h1, by simpa using h2⟩

theorem stepAction_preserves (a : Action) (st : GameState) (hwf : WFState st) :
    WFState (stepAction a st) ∧
    ∀ f ∈ st.fragments, f.isPlaced = true → f ∈ (stepAction a st).fragments := by
  obtain ⟨hn, hdr⟩ := hwf
  cases a with
  | down pos =>
    show WFState (pointerDown pos st) ∧
      ∀ f ∈ st.fragments, f.isPlaced = true → f ∈ (pointerDown pos st).fragments
    unfold pointerDown
    by_cases hv : st.isVictory = true
    · rw [if_pos hv]
      exact ⟨⟨hn, hdr⟩, fun f hf _ => hf⟩
    · rw [if_neg hv]
      cases hff : findFragment st pos with
      | none => exact ⟨⟨hn, hdr⟩, fun f hf _ => hf⟩
      | some frag =>
        dsimp only
        obtain ⟨hfmem, hfpl⟩ := findFragment_mem_unplaced st pos frag hff
        have hold : ∀ x ∈ st.fragments, x.isPlaced = true → x.id ≠ frag.id := by
          intro x hx hxp hxid
          have hxe := List.inj_on_of_nodup_map hn hx hfmem hxid
          rw [hxe, hfpl] at hxp
          cases hxp
        refine ⟨⟨?_, ?_⟩, ?_⟩
        · rw [updateById_map_id st.fragments frag.id]
          · exact hn
          · intro x
            rfl
        · intro d' hd' f' hf' hp
          injection hd' with hdd
          rw [← hdd]
          exact update_placed_ne st.fragments frag.id _ frag.id hold f' hf' hp
            (fun x => rfl) (fun x => rfl)
        · intro f hf hp
          exact mem_updateById_of_ne _ _ _ f hf (hold f hf hp)
  | move pos =>
    show WFState (pointerMove pos st) ∧
      ∀ f ∈ st.fragments, f.isPlaced = true → f ∈ (pointerMove pos st).fragments
    unfold pointerMove
    cases hd : st.dragging with
    | none => exact ⟨⟨hn, hdr⟩, fun f hf _ => hf⟩
    | some d =>
      dsimp only
      have hold := hdr d hd
      refine ⟨⟨?_, ?_⟩, ?_⟩
      · rw [updateById_map_id st.fragments d.fragmentId]
        · exact hn
        · intro x
          rfl
      · intro d' hd' f' hf' hp
        injection hd' with hdd
        rw [← hdd]
        exact update_placed_ne st.fragments d.fragmentId _ d.fragmentId hold f' hf' hp
          (fun x => rfl) (fun x => rfl)
      · intro f hf hp
        exact mem_updateById_of_ne _ _ _ f hf (hold f hf hp)
  | up =>
    show WFState (pointerUp st) ∧
      ∀ f ∈ st.fragments, f.isPlaced = true → f ∈ (pointerUp st).fragments
    unfold pointerUp
    cases hd : st.dragging with
    | none => exact ⟨⟨hn, hdr⟩, fun f hf _ => hf⟩
    | some d =>
      have hold := hdr d hd
      dsimp only
      cases hfind : st.fragments.find? (fun f => f.id == d.fragmentId) with
      | none =>
        refine ⟨⟨hn, fun d' hd' => ?_⟩, fun f hf _ => hf⟩
        cases hd'
      | some frag =>
        dsimp only
        split
        · split
          · refine ⟨⟨?_, fun d' hd' => ?_⟩, ?_⟩
            · rw [updateById_map_id st.fragments d.fragmentId]
              · exact hn
              · intro x
                rfl
            · cases hd'
            · intro f hf hp
              exact mem_updateById_of_ne _ _ _ f hf (hold f hf hp)
          · refine ⟨⟨hn, fun d' hd' => ?_⟩, fun f hf _ => hf⟩
            cases hd'
        · split
          · refine ⟨⟨?_, fun d' hd' => ?_⟩, ?_⟩
            · rw [updateById_map_id st.fragments d.fragmentId]
              · exact hn
              · intro x
                rfl
            · cases hd'
            · intro f hf hp
              exact mem_updateById_of_ne _ _ _ f hf (hold f hf hp)
          · refine ⟨⟨hn, fun d' hd' => ?_⟩, fun f hf _ => hf⟩
            cases hd'
  | key =>
    show WFState (keyRotate st) ∧
      ∀ f ∈ st.fragments, f.isPlaced = true → f ∈ (keyRotate st).fragments
    unfold keyRotate
    cases hd : st.dragging with
    | none => exact ⟨⟨hn, hdr⟩, fun f hf _ => hf⟩
    | some d =>
      dsimp only
      have hold := hdr d hd
      refine ⟨⟨?_, ?_⟩, ?_⟩
      · rw [updateById_map_id st.fragments d.fragmentId]
        · exact hn
        · intro x
          rfl
      · intro d' hd' f' hf' hp
        injection hd' with hdd
        rw [← hdd]
        exact update_placed_ne st.fragments d.fragmentId _ d.fragmentId hold f' hf' hp
          (fun x => rfl) (fun x => rfl)
      · intro f hf hp
        exact mem_updateById_of_ne _ _ _ f hf (hold f hf hp)
  | wheel b =>
    show WFState (wheelRotate b st) ∧
      ∀ f ∈ st.fragments, f.isPlaced = true → f ∈ (wheelRotate b st).fragments
    unfold wheelRotate
    cases hd : st.dragging with
    | none => exact ⟨⟨hn, hdr⟩, fun f hf _ => hf⟩
    | some d =>
      dsimp only
      have hold := hdr d hd
      refine ⟨⟨?_, ?_⟩, ?_⟩
      · rw [updateById_map_id st.fragments d.fragmentId]
        · exact hn
        · intro x
          rfl
      · intro d' hd' f' hf' hp
        injection hd' with hdd
        rw [← hdd]
        exact update_placed_ne st.fragments d.fragmentId _ d.fragmentId hold f' hf' hp
          (fun x => rfl) (fun x => rfl)
      · intro f hf hp
        exact mem_updateById_of_ne _ _ _ f hf (hold f hf hp)
  | button =>
    show WFState (rotateButton st) ∧
      ∀ f ∈ st.fragments, f.isPlaced = true → f ∈ (rotateButton st).fragments
    unfold rotateButton
    dsimp only
    cases htop : ((st.fragments.filter (fun f => !f.isPlaced)).mergeSort
        (fun a b => decide (b.zIndex ≤ a.zIndex))).head? with
    | none => exact ⟨⟨hn, hdr⟩, fun f hf _ => hf⟩
    | some top =>
      dsimp only
      have htmem : top ∈ st.fragments ∧ top.isPlaced = false := by
        have hmem : top ∈ (st.fragments.filter (fun f => !f.isPlaced)).mergeSort
            (fun a b => decide (b.zIndex ≤ a.zIndex)) :=
          List.mem_of_mem_head? htop
        rw [List.mem_mergeSort] at hmem
        obtain ⟨h1, h2⟩ := List.mem_filter.mp hmem
        exact ⟨h1, by simpa using h2⟩
      have hold : ∀ x ∈ st.fragments, x.isPlaced = true → x.id ≠ top.id := by
        intro x hx hxp hxid
        have hxe := List.inj_on_of_nodup_map hn hx htmem.1 hxid
        rw [hxe, htmem.2] at hxp
        cases hxp
      refine ⟨⟨?_, ?_⟩, ?_⟩
      · rw [updateById_map_id st.fragments top.id]
        · exact hn
        · intro x
          rfl
      · intro d' hd' f' hf' hp
        exact update_placed_ne st.fragments top.id _ d'.fragmentId (hdr d' hd') f' hf' hp
          (fun x => rfl) (fun x => rfl)
      · intro f hf hp
        exact mem_updateById_of_ne _ _ _ f hf (hold f hf hp)

theorem runActions_preserves (acts : List Action) : ∀ (st : GameState), WFState st →
    ∀ f ∈ st.fragments, f.isPlaced = true →
      f ∈ (runActions acts st).fragments ∧ WFState (runActions acts st) := by
  induction acts with
  | nil => exact fun st hwf f hf hp => ⟨hf, hwf⟩
  | cons a rest ih =>
    intro st hwf f hf hp
    have h := stepAction_preserves a st hwf
    exact ih (stepAction a st) h.1 f (h.2 f hf hp) hp

/-- Claim C6: `snapFragment` sets `currentPosition = anchor + centroid`,
`rotation = 0` and `isPlaced = true`; `findFragment` never returns a placed
fragment; and in any well-formed state a placed fragment survives every
sequence of pointer, keyboard, wheel and rotate-button interactions with its
record (position, rotation, placed flag) unchanged, the state staying
well-formed. -/
theorem C6_snap_and_placed_permanence :
    (∀ (f : Fragment) (anchor : Pt ℝ),
        (snapFragment f anchor).currentPosition =
            ⟨anchor.x + f.centroid.x, anchor.y + f.centroid.y⟩ ∧
          (snapFragment f anchor).rotation = 0 ∧
          (snapFragment f anchor).isPlaced = true) ∧
    (∀ (st : GameState) (pos : Pt ℝ) (f : Fragment),
        findFragment st pos = some f → f.isPlaced = false) ∧
    (∀ (acts : List Action) (st : GameState), WFState st →
      ∀ f ∈ st.fragments, f.isPlaced = true →
        f ∈ (runActions acts st).fragments ∧ WFState (runActions acts st)) := by
  refine ⟨fun f anchor => ⟨rfl, rfl, rfl⟩, ?_, ?_⟩
  · intro st pos f h
    exact (findFragment_mem_unplaced st pos f h).2
  · intro acts st hwf f hf hp
    exact runActions_preserves acts st hwf f hf hp

/-- A concrete placed fragment used by the claim-C6 witness. -/
noncomputable def placedProbe : Fragment :=
  ⟨0, [⟨0, 0⟩, ⟨10, 0⟩, ⟨0, 10⟩], ⟨3, 3⟩, ⟨3, 3⟩, ⟨5, 5⟩, 0, true, 0⟩

/-- A concrete one-fragment game state used by the claim-C6 witness. -/
noncomputable def probeState : GameState :=
  ⟨[placedProbe], none, ⟨0, 0⟩, 1, false⟩

theorem C6_witness :
    placedProbe ∈ (runActions [Action.up, Action.button] probeState).fragments ∧
      WFState (runActions [Action.up, Action.button] probeState) :=
  C6_snap_and_placed_permanence.2.2 [Action.up, Action.button] probeState
    ⟨by simp [probeState, placedProbe], fun d hd => by simp [probeState] at hd⟩
    placedProbe (by simp [probeState]) rfl

/-! ### Half-plane lemmas for the clipping pipeline (claim C2) -/

theorem isInside_eq_crossL (p a b : Pt ℚ) :
    isInside p a b = decide (0 ≤ crossL a b p) := by
  unfold isInside crossL
  exact decide_eq_decide.mpr ge_iff_le

theorem crossL_lineIntersection_self (p1 p2 A B X : Pt ℚ)
    (hX : lineIntersection p1 p2 A B = some X) : crossL A B X = 0 := by
  unfold lineIntersection at hX
  dsimp only at hX
  by_cases hd : |(p1.x - p2.x) * (A.y - B.y) - (p1.y - p2.y) * (A.x - B.x)| < 1 / 10 ^ 10
  · rw [if_pos hd] at hX
    cases hX
  · rw [if_neg hd] at hX
    have hd0 : (p1.x - p2.x) * (A.y - B.y) - (p1.y - p2.y) * (A.x - B.x) ≠ 0 := by
      intro h0
      apply hd
      rw [h0]
      norm_num
    injection hX with hXe
    subst hXe
    unfold crossL
    field_simp
    ring

theorem crossL_lineIntersection_convex (A0 B0 A B p1 p2 X : Pt ℚ)
    (hX : lineIntersection p1 p2 A B = some X)
    (hstr : (crossL A B p1 < 0 ∧ 0 ≤ crossL A B p2) ∨
      (0 ≤ crossL A B p1 ∧ crossL A B p2 < 0))
    (h1 : 0 ≤ crossL A0 B0 p1) (h2 : 0 ≤ crossL A0 B0 p2) :
    0 ≤ crossL A0 B0 X := by
  unfold lineIntersection at hX
  dsimp only at hX
  by_cases hd : |(p1.x - p2.x) * (A.y - B.y) - (p1.y - p2.y) * (A.x - B.x)| < 1 / 10 ^ 10
  · rw [if_pos hd] at hX
    cases hX
  · rw [if_neg hd] at hX
    have hd0 : (p1.x - p2.x) * (A.y - B.y) - (p1.y - p2.y) * (A.x - B.x) ≠ 0 := by
      intro h0
      apply hd
      rw [h0]
      norm_num
    injection hX with hXe
    subst hXe
    set t := ((p1.x - A.x) * (A.y - B.y) - (p1.y - A.y) * (A.x - B.x)) /
      ((p1.x - p2.x) * (A.y - B.y) - (p1.y - p2.y) * (A.x - B.x)) with ht
    have hden : (p1.x - p2.x) * (A.y - B.y) - (p1.y - p2.y) * (A.x - B.x) =
        crossL A B p1 - crossL A B p2 := by
      unfold crossL
      ring
    have hnum : (p1.x - A.x) * (A.y - B.y) - (p1.y - A.y) * (A.x - B.x) =
        crossL A B p1 := by
      unfold crossL
      ring
    have htv : t = crossL A B p1 / (crossL A B p1 - crossL A B p2) := by
      rw [ht, hden, hnum]
    have hd0' : crossL A B p1 - crossL A B p2 ≠ 0 := by
      rw [← hden]
      exact hd0
    have ht01 : 0 ≤ t ∧ t ≤ 1 := by
      rcases hstr with ⟨ha, hb⟩ | ⟨ha, hb⟩
      · constructor
        · rw [htv, div_nonneg_iff]
          right
          constructor
          · linarith
          · linarith
        · rw [htv, div_le_one_iff]
          right
          right
          constructor
          · linarith
          · linarith
      · constructor
        · rw [htv]
          apply div_nonneg ha
          linarith
        · rw [htv, div_le_one (by linarith)]
          linarith
    have hval : crossL A0 B0 (Pt.mk (p1.x + t * (p2.x - p1.x)) (p1.y + t * (p2.y - p1.y)))
        = (1 - t) * crossL A0 B0 p1 + t * crossL A0 B0 p2 := by
      unfold crossL
      ring
    rw [hval]
    have hm1 := mul_nonneg (by linarith [ht01.2] : (0 : ℚ) ≤ 1 - t) h1
    have hm2 := mul_nonneg ht01.1 h2
    linarith

theorem clipStep_mem_self (A B : Pt ℚ) (out : List (Pt ℚ)) (cp : Pt ℚ × Pt ℚ) :
    ∀ v ∈ clipStep A B out cp, v ∈ out ∨ 0 ≤ crossL A B v := by
  intro v hv
  unfold clipStep at hv
  dsimp only at hv
  rw [isInside_eq_crossL, isInside_eq_crossL] at hv
  by_cases hc : (0 : ℚ) ≤ crossL A B cp.1
  · rw [if_pos (decide_eq_true hc)] at hv
    by_cases hp : (0 : ℚ) ≤ crossL A B cp.2
    · rw [if_neg (by simp [hp])] at hv
      rcases List.mem_append.mp hv with h | h
      · exact Or.inl h
      · rw [List.mem_singleton] at h
        subst h
        exact Or.inr hc
    · rw [if_pos (by simp [hp])] at hv
      rcases List.mem_append.mp hv with h | h
      · rcases List.mem_append.mp h with h2 | h2
        · exact Or.inl h2
        · cases hli : lineIntersection cp.2 cp.1 A B with
          | none => rw [hli] at h2; cases h2
          | some X =>
            rw [hli] at h2
            rw [Option.toList_some, List.mem_singleton] at h2
            subst h2
            exact Or.inr (le_of_eq (crossL_lineIntersection_self cp.2 cp.1 A B v hli).symm)
      · rw [List.mem_singleton] at h
        subst h
        exact Or.inr hc
  · rw [if_neg (by simp [hc])] at hv
    by_cases hp : (0 : ℚ) ≤ crossL A B cp.2
    · rw [if_pos (decide_eq_true hp)] at hv
      rcases List.mem_append.mp hv with h | h
      · exact Or.inl h
      · cases hli : lineIntersection cp.2 cp.1 A B with
        | none => rw [hli] at h; cases h
        | some X =>
          rw [hli] at h
          rw [Option.toList_some, List.mem_singleton] at h
          subst h
          exact Or.inr (le_of_eq (crossL_lineIntersection_self cp.2 cp.1 A B v hli).symm)
    · rw [if_neg (by simp [hp])] at hv
      exact Or.inl hv

theorem clipStep_halfplane (A0 B0 A B : Pt ℚ) (out : List (Pt ℚ)) (cp : Pt ℚ × Pt ℚ)
    (hout : ∀ v ∈ out, 0 ≤ crossL A0 B0 v)
    (h1 : 0 ≤ crossL A0 B0 cp.1) (h2 : 0 ≤ crossL A0 B0 cp.2) :
    ∀ v ∈ clipStep A B out cp, 0 ≤ crossL A0 B0 v := by
  intro v hv
  unfold clipStep at hv
  dsimp only at hv
  rw [isInside_eq_crossL, isInside_eq_crossL] at hv
  by_cases hc : (0 : ℚ) ≤ crossL A B cp.1
  · rw [if_pos (decide_eq_true hc)] at hv
    by_cases hp : (0 : ℚ) ≤ crossL A B cp.2
    · rw [if_neg (by simp [hp])] at hv
      rcases List.mem_append.mp hv with h | h
      · exact hout v h
      · rw [List.mem_singleton] at h
        subst h
        exact h1
    · rw [if_pos (by simp [hp])] at hv
      rcases List.mem_append.mp hv with h | h
      · rcases List.mem_append.mp h with h2 | h2
        · exact hout v h2
        · cases hli : lineIntersection cp.2 cp.1 A B with
          | none => rw [hli] at h2; cases h2
          | some X =>
            rw [hli] at h2
            rw [Option.toList_some, List.mem_singleton] at h2
            subst h2
            exact crossL_lineIntersection_convex A0 B0 A B cp.2 cp.1 v hli
              (Or.inl ⟨not_le.mp hp, hc⟩) h2 h1
      · rw [List.mem_singleton] at h
        subst h
        exact h1
  · rw [if_neg (by simp [hc])] at hv
    by_cases hp : (0 : ℚ) ≤ crossL A B cp.2
    · rw [if_pos (decide_eq_true hp)] at hv
      rcases List.mem_append.mp hv with h | h
      · exact hout v h
      · cases hli : lineIntersection cp.2 cp.1 A B with
        | none => rw [hli] at h; cases h
        | some X =>
          rw [hli] at h
          rw [Option.toList_some, List.mem_singleton] at h
          subst h
          exact crossL_lineIntersection_convex A0 B0 A B cp.2 cp.1 v hli
            (Or.inr ⟨hp, not_le.mp hc⟩) h2 h1
    · rw [if_neg (by simp [hp])] at hv
      exact hout v hv

theorem foldl_clipStep_mem_self (A B : Pt ℚ) :
    ∀ (pairs : List (Pt ℚ × Pt ℚ)) (acc : List (Pt ℚ)),
      (∀ v ∈ acc, 0 ≤ crossL A B v) →
      ∀ v ∈ pairs.foldl (clipStep A B) acc, 0 ≤ crossL A B v := by
  intro pairs
  induction pairs with
  | nil => intro acc h; simpa using h
  | cons cp rest ih =>
    intro acc h
    rw [List.foldl_cons]
    apply ih
    intro v hv
    rcases clipStep_mem_self A B acc cp v hv with h1 | h1
    · exact h v h1
    · exact h1

theorem clipEdge_self (A B : Pt ℚ) (input : List (Pt ℚ)) :
    ∀ v ∈ clipEdge A B input, 0 ≤ crossL A B v := by
  unfold clipEdge
  exact foldl_clipStep_mem_self A B _ [] (by simp)

theorem foldl_clipStep_halfplane (A0 B0 A B : Pt ℚ) :
    ∀ (pairs : List (Pt ℚ × Pt ℚ)) (acc : List (Pt ℚ)),
      (∀ cp ∈ pairs, 0 ≤ crossL A0 B0 cp.1 ∧ 0 ≤ crossL A0 B0 cp.2) →
      (∀ v ∈ acc, 0 ≤ crossL A0 B0 v) →
      ∀ v ∈ pairs.foldl (clipStep A B) acc, 0 ≤ crossL A0 B0 v := by
  intro pairs
  induction pairs with
  | nil => intro acc hp h; simpa using h
  | cons cp rest ih =>
    intro acc hp h
    rw [List.foldl_cons]
    apply ih
    · intro x hx
      exact hp x (List.mem_cons_of_mem cp hx)
    · obtain ⟨h1, h2⟩ := hp cp (List.mem_cons_self cp rest)
      exact clipStep_halfplane A0 B0 A B acc cp h h1 h2

theorem clipEdge_halfplane (A0 B0 A B : Pt ℚ) (input : List (Pt ℚ))
    (hin : ∀ v ∈ input, 0 ≤ crossL A0 B0 v) :
    ∀ v ∈ clipEdge A B input, 0 ≤ crossL A0 B0 v := by
  unfold clipEdge
  apply foldl_clipStep_halfplane
  · intro cp hcp
    obtain ⟨hc1, hc2⟩ := List.of_mem_zip hcp
    exact ⟨hin _ hc1, hin _ (List.mem_rotate.mp hc2)⟩
  · simp

theorem clipPolygonByLine_self (A B : Pt ℚ) (poly : List (Pt ℚ)) :
    ∀ v ∈ clipPolygonByLine poly A B, 0 ≤ crossL A B v := by
  unfold clipPolygonByLine
  split
  · simp
  · exact clipEdge_self A B poly

theorem clipPolygonByLine_halfplane (A0 B0 A B : Pt ℚ) (poly : List (Pt ℚ))
    (hin : ∀ v ∈ poly, 0 ≤ crossL A0 B0 v) :
    ∀ v ∈ clipPolygonByLine poly A B, 0 ≤ crossL A0 B0 v := by
  unfold clipPolygonByLine
  split
  · simp
  · exact clipEdge_halfplane A0 B0 A B poly hin

theorem foldl_clipEdge_halfplane (A0 B0 : Pt ℚ) :
    ∀ (edges : List (Pt ℚ × Pt ℚ)) (subject : List (Pt ℚ)),
      (∀ v ∈ subject, 0 ≤ crossL A0 B0 v) →
      ∀ v ∈ edges.foldl (fun output e => clipEdge e.1 e.2 output) subject,
        0 ≤ crossL A0 B0 v := by
  intro edges
  induction edges with
  | nil => intro subject h; simpa using h
  | cons e rest ih =>
    intro subject h
    rw [List.foldl_cons]
    exact ih _ (clipEdge_halfplane A0 B0 e.1 e.2 subject h)

theorem clipPolygon_halfplane (A0 B0 : Pt ℚ) (subject clip : List (Pt ℚ))
    (hin : ∀ v ∈ subject, 0 ≤ crossL A0 B0 v) :
    ∀ v ∈ clipPolygon subject clip, 0 ≤ crossL A0 B0 v := by
  unfold clipPolygon
  split
  · simp
  · exact foldl_clipEdge_halfplane A0 B0 (clip.zip (clip.rotate 1)) subject hin

theorem voronoiCellRaw_eq_fold (seeds : List (Pt ℚ)) (i : ℕ) (box : List (Pt ℚ)) :
    voronoiCellRaw seeds i box =
      (List.range seeds.length).foldl (voronoiClipStep seeds i) box := rfl

theorem voronoiClipStep_stuck (seeds : List (Pt ℚ)) (i j : ℕ) (cell : List (Pt ℚ))
    (h : cell.length < 3) : voronoiClipStep seeds i cell j = cell := by
  unfold voronoiClipStep
  by_cases hij : i = j
  · rw [if_pos hij]
  · rw [if_neg hij, if_pos h]

theorem voronoiClipStep_halfplane (seeds : List (Pt ℚ)) (i j : ℕ) (A0 B0 : Pt ℚ)
    (cell : List (Pt ℚ)) (h : ∀ v ∈ cell, 0 ≤ crossL A0 B0 v) :
    ∀ v ∈ voronoiClipStep seeds i cell j, 0 ≤ crossL A0 B0 v := by
  unfold voronoiClipStep
  split
  · exact h
  · split
    · exact h
    · exact clipPolygonByLine_halfplane A0 B0 _ _ cell h

theorem voronoiClipStep_Q (seeds : List (Pt ℚ)) (i j : ℕ) (A0 B0 : Pt ℚ)
    (cell : List (Pt ℚ))
    (h : cell.length < 3 ∨ ∀ v ∈ cell, 0 ≤ crossL A0 B0 v) :
    (voronoiClipStep seeds i cell j).length < 3 ∨
      ∀ v ∈ voronoiClipStep seeds i cell j, 0 ≤ crossL A0 B0 v := by
  rcases h with h | h
  · rw [voronoiClipStep_stuck seeds i j cell h]
    exact Or.inl h
  · exact Or.inr (voronoiClipStep_halfplane seeds i j A0 B0 cell h)

theorem voronoiClipStep_establish (seeds : List (Pt ℚ)) (i k : ℕ) (hik : i ≠ k)
    (cell : List (Pt ℚ)) :
    (voronoiClipStep seeds i cell k).length < 3 ∨
      ∀ v ∈ voronoiClipStep seeds i cell k,
        0 ≤ crossL (bisectorLineA (seeds.getD i ⟨0, 0⟩) (seeds.getD k ⟨0, 0⟩))
          (bisectorLineB (seeds.getD i ⟨0, 0⟩) (seeds.getD k ⟨0, 0⟩)) v := by
  unfold voronoiClipStep
  rw [if_neg hik]
  split
  · rename_i h
    exact Or.inl h
  · exact Or.inr (clipPolygonByLine_self _ _ cell)

theorem voronoiFold_Q (seeds : List (Pt ℚ)) (i : ℕ) (A0 B0 : Pt ℚ) :
    ∀ (idxs : List ℕ) (cell : List (Pt ℚ)),
      (cell.length < 3 ∨ ∀ v ∈ cell, 0 ≤ crossL A0 B0 v) →
      ((idxs.foldl (voronoiClipStep seeds i) cell).length < 3 ∨
        ∀ v ∈ idxs.foldl (voronoiClipStep seeds i) cell, 0 ≤ crossL A0 B0 v) := by
  intro idxs
  induction idxs with
  | nil => intro cell h; exact h
  | cons j rest ih =>
    intro cell h
    rw [List.foldl_cons]
    exact ih _ (voronoiClipStep_Q seeds i j A0 B0 cell h)

theorem voronoiFold_separates (seeds : List (Pt ℚ)) (i k : ℕ) (hik : i ≠ k) :
    ∀ (idxs : List ℕ), k ∈ idxs → ∀ (cell : List (Pt ℚ)),
      ((idxs.foldl (voronoiClipStep seeds i) cell).length < 3 ∨
        ∀ v ∈ idxs.foldl (voronoiClipStep seeds i) cell,
          0 ≤ crossL (bisectorLineA (seeds.getD i ⟨0, 0⟩) (seeds.getD k ⟨0, 0⟩))
            (bisectorLineB (seeds.getD i ⟨0, 0⟩) (seeds.getD k ⟨0, 0⟩)) v) := by
  intro idxs
  induction idxs with
  | nil => intro hk; cases hk
  | cons j rest ih =>
    intro hk cell
    rw [List.foldl_cons]
    by_cases hjk : j = k
    · subst hjk
      exact voronoiFold_Q seeds i _ _ rest _ (voronoiClipStep_establish seeds i j hik cell)
    · have hk2 : k ∈ rest := by
        rcases List.mem_cons.mp hk with h | h
        · exact absurd h.symm hjk
        · exact h
      exact ih hk2 _

theorem voronoiCellRaw_separates (seeds : List (Pt ℚ)) (i k : ℕ) (hik : i ≠ k)
    (hk : k < seeds.length) (box : List (Pt ℚ)) :
    (voronoiCellRaw seeds i box).length < 3 ∨
      ∀ v ∈ voronoiCellRaw seeds i box,
        0 ≤ crossL (bisectorLineA (seeds.getD i ⟨0, 0⟩) (seeds.getD k ⟨0, 0⟩))
          (bisectorLineB (seeds.getD i ⟨0, 0⟩) (seeds.getD k ⟨0, 0⟩)) v := by
  rw [voronoiCellRaw_eq_fold]
  exact voronoiFold_separates seeds i k hik (List.range seeds.length)
    (List.mem_range.mpr hk) box

theorem computeVoronoiCells_separates (seeds polygon : List (Pt ℚ)) (i k : ℕ)
    (hik : i ≠ k) (hk : k < seeds.length) (cell : List (Pt ℚ))
    (hcell : (computeVoronoiCells seeds polygon)[i]? = some cell) :
    ∀ v ∈ cell,
      0 ≤ crossL (bisectorLineA (seeds.getD i ⟨0, 0⟩) (seeds.getD k ⟨0, 0⟩))
        (bisectorLineB (seeds.getD i ⟨0, 0⟩) (seeds.getD k ⟨0, 0⟩)) v := by
  unfold computeVoronoiCells at hcell
  dsimp only at hcell
  rw [List.getElem?_map] at hcell
  have hi : i < seeds.length := by
    rcases h : (List.range seeds.length)[i]? with _ | j
    · rw [h] at hcell
      cases hcell
    · obtain ⟨hb, -⟩ := List.getElem?_eq_some.mp h
      rw [List.length_range] at hb
      exact hb
  rw [List.getElem?_range hi, Option.map_some'] at hcell
  injection hcell with hcelle
  rcases voronoiCellRaw_separates seeds i k hik hk (bigBox polygon) with hlt | hgood
  · have h3 : ¬ 3 ≤ (voronoiCellRaw seeds i (bigBox polygon)).length := by omega
    rw [← hcelle, if_neg h3, if_neg h3]
    intro v hv
    cases hv
  · rw [← hcelle]
    by_cases h3 : 3 ≤ (voronoiCellRaw seeds i (bigBox polygon)).length
    · rw [if_pos h3]
      by_cases h4 : 3 ≤ (clipPolygon (voronoiCellRaw seeds i (bigBox polygon)) polygon).length
      · rw [if_pos h4]
        exact clipPolygon_halfplane _ _ _ polygon hgood
      · rw [if_neg h4]
        intro v hv
        cases hv
    · rw [if_neg h3, if_neg h3]
      intro v hv
      cases hv

theorem crossL_bisector_nonneg_iff (si sk p : Pt ℚ) :
    0 ≤ crossL (bisectorLineA si sk) (bisectorLineB si sk) p ↔
      (p.x - sk.x) ^ 2 + (p.y - sk.y) ^ 2 ≤ (p.x - si.x) ^ 2 + (p.y - si.y) ^ 2 := by
  rw [← isInside_bisector_iff, isInside_eq_crossL, decide_eq_true_eq]

theorem mem_keptCells_getElem (outline seeds0 : List (Pt ℚ)) :
    ∀ ic ∈ keptCellsOfSeeds outline seeds0,
      (computeVoronoiCells (lloydRelax seeds0 outline 2) outline)[ic.1]? = some ic.2 := by
  intro ic hic
  unfold keptCellsOfSeeds at hic
  dsimp only at hic
  obtain ⟨x, hx, hfx⟩ := List.mem_filterMap.mp hic
  have hxi : x = ic := by
    by_cases h1 : x.2.length < 3
    · rw [if_pos h1] at hfx
      cases hfx
    · rw [if_neg h1] at hfx
      by_cases h2 : |polygonArea x.2| < |polygonArea outline| * (1 / 100)
      · rw [if_pos h2] at hfx
        cases hfx
      · rw [if_neg h2] at hfx
        injection hfx
  subst hxi
  exact List.mem_enum_iff_getElem?.mp hx

/-- Claim C2 (amended): the un-perturbed Voronoi cells underlying the
returned fragments have non-overlapping interiors — any two kept cells are
separated by the perpendicular bisector of their relaxed seeds, every
vertex of either cell lying at least as close to the other cell's seed, so
the two polygons occupy the two closed half-planes of that bisector and
their interiors meet at most on the bisector line — and each kept cell has
absolute area at least 1% of the outline's, so the area sum is at least
`count · 1% · |outline area|`.  The sum need NOT equal the outline's area
within 1e-3 relative (it can even be 0 for a simple non-convex outline, as
the counterexample shows), because sub-1% cells are discarded and
Sutherland-Hodgman clipping against a non-convex outline keeps only the
intersection of the outline's edge half-planes. -/
theorem C2_cells_separated_and_area_lower_bound :
    (∀ (outline : List (Pt ℚ)) (d : Difficulty) (seed : Option ℤ) (amb : ℕ → ℚ),
      ∀ ic ∈ (generateKeptCells outline d seed amb).1,
        ∀ kc ∈ (generateKeptCells outline d seed amb).1, ic.1 ≠ kc.1 →
          bisectorSeparated
            ((relaxedSeeds outline d seed amb).getD ic.1 ⟨0, 0⟩)
            ((relaxedSeeds outline d seed amb).getD kc.1 ⟨0, 0⟩)
            ic.2 kc.2) ∧
    (∀ (outline : List (Pt ℚ)) (d : Difficulty) (seed : Option ℤ) (amb : ℕ → ℚ),
      ((generateKeptCells outline d seed amb).1.length : ℚ) *
          (|polygonArea outline| * (1 / 100)) ≤
        ((generateKeptCells outline d seed amb).1.map
          (fun ic => |polygonArea ic.2|)).sum) := by
  refine ⟨?_, keptCells_area_lower_bound⟩
  intro outline d seed amb ic hic kc hkc hne
  have hic2 : ic ∈ keptCellsOfSeeds outline (generateSeeds outline d seed amb).1 := by
    simpa [generateKeptCells] using hic
  have hkc2 : kc ∈ keptCellsOfSeeds outline (generateSeeds outline d seed amb).1 := by
    simpa [generateKeptCells] using hkc
  have hgi := mem_keptCells_getElem outline _ ic hic2
  have hgk := mem_keptCells_getElem outline _ kc hkc2
  have hlen : (computeVoronoiCells (lloydRelax (generateSeeds outline d seed amb).1
      outline 2) outline).length =
      (lloydRelax (generateSeeds outline d seed amb).1 outline 2).length :=
    computeVoronoiCells_length _ _
  have hbi : ic.1 < (lloydRelax (generateSeeds outline d seed amb).1 outline 2).length := by
    obtain ⟨hb, -⟩ := List.getElem?_eq_some.mp hgi
    rw [hlen] at hb
    exact hb
  have hbk : kc.1 < (lloydRelax (generateSeeds outline d seed amb).1 outline 2).length := by
    obtain ⟨hb, -⟩ := List.getElem?_eq_some.mp hgk
    rw [hlen] at hb
    exact hb
  unfold bisectorSeparated relaxedSeeds
  constructor
  · intro v hv
    have h := computeVoronoiCells_separates _ outline ic.1 kc.1 hne hbk ic.2 hgi v hv
    rw [crossL_bisector_nonneg_iff] at h
    exact h
  · intro w hw
    have h := computeVoronoiCells_separates _ outline kc.1 ic.1 (Ne.symm hne) hbi kc.2
      hgk w hw
    rw [crossL_bisector_nonneg_iff] at h
    exact h

set_option maxRecDepth 200000 in
set_option maxHeartbeats 16000000 in
/-- Witness for claim C2: on the sliver triangle at difficulty hard with
seed 42, the two kept cells are separated by the bisector of their relaxed
seeds. -/
theorem C2_separation_witness :
    bisectorSeparated
      ((relaxedSeeds sliverTriangle (.str ("hard")) (some 42) ambZero).getD
        ((generateKeptCells sliverTriangle (.str ("hard")) (some 42) ambZero).1.getD 0
          (0, [])).1 ⟨0, 0⟩)
      ((relaxedSeeds sliverTriangle (.str ("hard")) (some 42) ambZero).getD
        ((generateKeptCells sliverTriangle (.str ("hard")) (some 42) ambZero).1.getD 1
          (0, [])).1 ⟨0, 0⟩)
      ((generateKeptCells sliverTriangle (.str ("hard")) (some 42) ambZero).1.getD 0
        (0, [])).2
      ((generateKeptCells sliverTriangle (.str ("hard")) (some 42) ambZero).1.getD 1
        (0, [])).2 :=
  C2_cells_separated_and_area_lower_bound.1 sliverTriangle (.str ("hard")) (some 42) ambZero
    ((generateKeptCells sliverTriangle (.str ("hard")) (some 42) ambZero).1.getD 0 (0, []))
    (by
      have h2 : (generateKeptCells sliverTriangle (.str ("hard")) (some 42) ambZero).1.length
          = 2 := sliver_hard_kept_length
      have h0 : 0 < (generateKeptCells sliverTriangle (.str ("hard")) (some 42)
          ambZero).1.length := by omega
      rw [List.getD_eq_getElem _ _ h0]
      exact List.getElem_mem h0)
    ((generateKeptCells sliverTriangle (.str ("hard")) (some 42) ambZero).1.getD 1 (0, []))
    (by
      have h2 : (generateKeptCells sliverTriangle (.str ("hard")) (some 42) ambZero).1.length
          = 2 := sliver_hard_kept_length
      have h1 : 1 < (generateKeptCells sliverTriangle (.str ("hard")) (some 42)
          ambZero).1.length := by omega
      rw [List.getD_eq_getElem _ _ h1]
      exact List.getElem_mem h1)
    (by
      rw [generateKeptCells_sliver]
      with_unfolding_all decide)

end Leaf
